import Mathlib

/-! LibTools: the queue API (src/queue/queue_api.c) and the text functions
(src/text/text_lib.c)

A shallow embedding of the public queue functions.  Every function of
queue_api.c is a thin wrapper around the private `QUEUE__*` functions of
queue_lib.h and around `log_write`.  The wrappers are embedded from the C
source; the private functions they call are not part of the sources, so the
wrappers take them as a record of state-passing functions (`QueueLib`), and a
second part of the file models them from the specification (`specLib`).

Conventions
* C `int` and `enum queue_rc_e` values are `Int`; no arithmetic is done on
  them by the API, so no wrap-around can occur.
* A pointer to a payload is a `Nat` address, `0` being `NULL`.
* A queue name is `Option String`, `none` being the `NULL` pointer.
* Every API function returns its C return value, the state of the library
  after the call and the trace of the calls it made, in program order.
-/

namespace LibTools

/-! ## Observable actions -/

/-- Message levels handed to `log_write`. -/
inductive MID where
  | MID_FATAL
  | MID_INFO
  | MID_DEBUG_0
  deriving DecidableEq, Repr

/-- One call made by an API function: either a call of a private library
function (with the arguments it was given) or a call of `log_write` (with its
level and its function tag; the formatted text is not recorded). -/
inductive Event where
  | list_new
  | QUEUE__verify_queue_name (queue_name_p : Option String)
  | QUEUE__find_queue_name (queue_name_p : Option String)
  | QUEUE__new (queue_name_p : Option String) (queue_depth : Int)
  | QUEUE__get_count (queue_id : Int)
  | QUEUE__put_payload (overwrite : Bool) (queue_id : Int) (void_p : Nat)
  | QUEUE__get_payload (queue_id : Int)
  | log_write (level : MID) (tag : String)
  deriving DecidableEq, Repr

/-- Whether an action is a call of a private library function (or of
`list_new`), as opposed to a diagnostic. -/
def Event.isCall : Event → Bool
  | Event.log_write _ _ => false
  | _ => true

/-- The enumerators of `enum queue_rc_e` that queue_api.c names.  The
enumeration is declared in libtools_api.h, which is not part of the sources,
so the numeric values are parameters of the embedding. -/
structure queue_rc_e where
  QUEUE_RC_SUCCESS : Int
  QUEUE_RC_QUEUE_NAME_NOT_PRESENT : Int
  QUEUE_RC_QUEUE_NAME_EXISTS : Int
  deriving DecidableEq, Repr

/-- The constant `true` of stdbool.h. -/
def c_true : Int := 1

/-- The private functions of queue_lib.h that the API calls, as state-passing
functions over the library state `σ`.  `QUEUE__get_payload` yields `none` when
the calling thread is suspended inside the call and never returns. -/
structure QueueLib (σ : Type) where
  QUEUE__verify_queue_name : Option String → σ → Int × σ
  QUEUE__find_queue_name : Option String → σ → Int × σ
  QUEUE__new : Option String → Int → σ → Int × σ
  QUEUE__get_count : Int → σ → Int × σ
  QUEUE__put_payload : Bool → Int → Nat → σ → Int × σ
  QUEUE__get_payload : Int → σ → Option (Nat × σ)

/-- What a call of an API function yields: the C return value, the library
state after the call, and the calls made, in program order. -/
structure Ret (α σ : Type) where
  value : α
  state : σ
  trace : List Event

/-! ## The API functions (queue_api.c) -/

/-- Embedding of `queue_init`.  `list_new` is the pointer returned by the call
of `list_new( )` (`none` for `NULL`); the state is the global
`queue_name_id_base_p`. -/
def queue_init {β : Type} (rc : queue_rc_e) (list_new : Option β)
    (queue_name_id_base_p : Option β) : Ret Int (Option β) :=
  let queue_rc := rc.QUEUE_RC_SUCCESS
  if queue_rc = rc.QUEUE_RC_SUCCESS then
    match list_new with
    | none =>
      ⟨queue_rc, none, [Event.list_new, Event.log_write MID.MID_FATAL "queue_init"]⟩
    | some p =>
      ⟨queue_rc, some p, [Event.list_new, Event.log_write MID.MID_INFO "queue_init"]⟩
  else
    ⟨queue_rc, queue_name_id_base_p, []⟩

/-- Embedding of `queue_new`.  The automatic variable `queue_id` is declared
without an initial value and is assigned only inside the branch taken when the
name is valid; `queue_id₀` is the indeterminate content it has otherwise. -/
def queue_new {σ : Type} (rc : queue_rc_e) (L : QueueLib σ) (queue_id₀ : Int)
    (queue_name_p : Option String) (queue_depth : Int) (s : σ) : Ret Int σ :=
  let v := L.QUEUE__verify_queue_name queue_name_p s
  let queue_rc := v.1
  let r : Ret Int σ :=
    if queue_rc = rc.QUEUE_RC_SUCCESS then
      let f := L.QUEUE__find_queue_name queue_name_p v.2
      if f.1 = rc.QUEUE_RC_QUEUE_NAME_NOT_PRESENT then
        let n := L.QUEUE__new queue_name_p queue_depth f.2
        ⟨n.1, n.2, [Event.QUEUE__verify_queue_name queue_name_p,
                    Event.QUEUE__find_queue_name queue_name_p,
                    Event.QUEUE__new queue_name_p queue_depth]⟩
      else
        ⟨rc.QUEUE_RC_QUEUE_NAME_EXISTS, f.2,
          [Event.QUEUE__verify_queue_name queue_name_p,
           Event.QUEUE__find_queue_name queue_name_p]⟩
    else
      ⟨queue_id₀, v.2, [Event.QUEUE__verify_queue_name queue_name_p]⟩
  if r.value > 0 then
    ⟨r.value, r.state, r.trace ++ [Event.log_write MID.MID_DEBUG_0 "queue_new"]⟩
  else
    r

/-- Embedding of `queue_get_id`. -/
def queue_get_id {σ : Type} (rc : queue_rc_e) (L : QueueLib σ)
    (queue_name_p : Option String) (s : σ) : Ret Int σ :=
  let r0 : Ret Int σ := ⟨rc.QUEUE_RC_SUCCESS, s, []⟩
  let r1 : Ret Int σ :=
    if r0.value = rc.QUEUE_RC_SUCCESS then
      let v := L.QUEUE__verify_queue_name queue_name_p r0.state
      ⟨v.1, v.2, r0.trace ++ [Event.QUEUE__verify_queue_name queue_name_p]⟩
    else r0
  let r2 : Ret Int σ :=
    if r1.value = rc.QUEUE_RC_SUCCESS then
      let f := L.QUEUE__find_queue_name queue_name_p r1.state
      ⟨f.1, f.2, r1.trace ++ [Event.QUEUE__find_queue_name queue_name_p]⟩
    else r1
  if r2.value ≤ 0 then
    ⟨r2.value, r2.state, r2.trace ++ [Event.log_write MID.MID_FATAL "queue_get_msg_id"]⟩
  else
    ⟨r2.value, r2.state, r2.trace ++ [Event.log_write MID.MID_DEBUG_0 "queue_get_msg_q_id"]⟩

/-- Embedding of `queue_get_count`.  The guard `queue_rc == QUEUE_RC_SUCCESS`
directly follows `queue_rc = QUEUE_RC_SUCCESS` and always holds, so
`queue_msg_count` is always assigned. -/
def queue_get_count {σ : Type} (L : QueueLib σ) (queue_id : Int) (s : σ) : Ret Int σ :=
  let c := L.QUEUE__get_count queue_id s
  ⟨c.1, c.2, [Event.QUEUE__get_count queue_id,
              Event.log_write MID.MID_DEBUG_0 "queue_get_count"]⟩

/-- The common body of `queue_put_payload` and `queue_override_put_payload`,
which differ only in the first argument handed to `QUEUE__put_payload`.  Both
log under the tag "queue_put_payload". -/
def put_payload_body {σ : Type} (rc : queue_rc_e) (L : QueueLib σ) (overwrite : Bool)
    (queue_id : Int) (void_p : Nat) (s : σ) : Ret Int σ :=
  let r0 : Ret Int σ := ⟨rc.QUEUE_RC_SUCCESS, s, []⟩
  let r1 : Ret Int σ :=
    if r0.value = rc.QUEUE_RC_SUCCESS then
      let e := L.QUEUE__put_payload overwrite queue_id void_p r0.state
      ⟨e.1, e.2, r0.trace ++ [Event.QUEUE__put_payload overwrite queue_id void_p]⟩
    else r0
  if r1.value = c_true then
    ⟨r1.value, r1.state, r1.trace ++ [Event.log_write MID.MID_DEBUG_0 "queue_put_payload"]⟩
  else
    ⟨r1.value, r1.state, r1.trace ++ [Event.log_write MID.MID_FATAL "queue_put_payload"]⟩

/-- Embedding of `queue_put_payload`. -/
def queue_put_payload {σ : Type} (rc : queue_rc_e) (L : QueueLib σ)
    (queue_id : Int) (void_p : Nat) (s : σ) : Ret Int σ :=
  put_payload_body rc L false queue_id void_p s

/-- Embedding of `queue_override_put_payload`. -/
def queue_override_put_payload {σ : Type} (rc : queue_rc_e) (L : QueueLib σ)
    (queue_id : Int) (void_p : Nat) (s : σ) : Ret Int σ :=
  put_payload_body rc L true queue_id void_p s

/-- Embedding of `queue_get_payload`; `none` when the thread is suspended
inside `QUEUE__get_payload`.  As in `queue_get_count` the guard before the call
always holds. -/
def queue_get_payload {σ : Type} (L : QueueLib σ) (queue_id : Int) (s : σ) :
    Option (Ret Nat σ) :=
  match L.QUEUE__get_payload queue_id s with
  | none => none
  | some (void_p, s1) =>
    some ⟨void_p, s1,
      [Event.log_write MID.MID_DEBUG_0 "queue_get_payload",
       Event.QUEUE__get_payload queue_id,
       Event.log_write (if void_p ≠ 0 then MID.MID_DEBUG_0 else MID.MID_FATAL)
         "queue_get_payload"]⟩

/-! ## The private library, modelled from the specification

queue_lib.c is not part of the sources.  The definitions below model the
registry and the FIFO engine from sections 3, 4.1, 4.2 and 7 of the
specification.  The model is sequential: the set of blocked consumers and the
wake-up of a waiter are not represented, and a retrieval from an empty queue
is a call that does not return. -/

/-- Modelled from the spec: the representation of the outcomes of the registry
and the engine (section 7 gives the error kinds, not their representation).
queue_lib.c and libtools_api.h are missing; the codes are parameters.
`NON_POSITIVE_DEPTH` is the code of the caller error of section 4.2 (a depth
that is not positive), `PUT_SUCCESS` the value by which the engine reports a
successful put, and `name_ok` the length and character constraints on a
name. -/
structure EngineCfg where
  rc : queue_rc_e
  ALLOCATION_FAILURE : Int
  INVALID_NAME : Int
  NON_POSITIVE_DEPTH : Int
  UNKNOWN_QUEUE_ID : Int
  QUEUE_FULL : Int
  PUT_SUCCESS : Int
  name_ok : String → Bool

/-- Modelled from the spec: the constraints on the codes of `EngineCfg`
(queue_lib.c and libtools_api.h are missing).  Values not above zero are
reserved for error signalling (section 3), and a failure is distinguishable
from success. -/
structure EngineCfg.WF (cfg : EngineCfg) : Prop where
  not_present_le : cfg.rc.QUEUE_RC_QUEUE_NAME_NOT_PRESENT ≤ 0
  exists_le : cfg.rc.QUEUE_RC_QUEUE_NAME_EXISTS ≤ 0
  alloc_le : cfg.ALLOCATION_FAILURE ≤ 0
  invalid_le : cfg.INVALID_NAME ≤ 0
  depth_le : cfg.NON_POSITIVE_DEPTH ≤ 0
  invalid_ne : cfg.INVALID_NAME ≠ cfg.rc.QUEUE_RC_SUCCESS
  unknown_ne : cfg.UNKNOWN_QUEUE_ID ≠ cfg.PUT_SUCCESS
  full_ne : cfg.QUEUE_FULL ≠ cfg.PUT_SUCCESS

/-- Modelled from the spec: a Registry Entry of section 3, a name and the
Queue-ID registered for it (queue_lib.c is missing). -/
structure RegistryEntry where
  name : String
  id : Int
  deriving DecidableEq, Repr

/-- Modelled from the spec: a Queue of section 3 (queue_lib.c is missing),
without its set of blocked consumers. -/
structure Queue where
  id : Int
  name : String
  capacity : Int
  backlog : List Nat
  deriving DecidableEq, Repr

/-- Modelled from the spec: the process-wide state of section 3 (queue_lib.c
is missing): the registry behind `queue_name_id_base_p` (`none` until
`queue_init` has stored an allocated list), the live queues, and the last
Queue-ID that was assigned. -/
structure QueueStack where
  queue_name_id_base_p : Option (List RegistryEntry)
  queues : List Queue
  last_id : Int
  deriving DecidableEq, Repr

/-- The state of the process before `queue_init`. -/
def QueueStack.start : QueueStack := ⟨none, [], 0⟩

/-- Modelled from the spec: `find(key)` of the ordered-list collaborator of
section 6, on the registry (the list container is missing). -/
def findEntry (name : String) : List RegistryEntry → Option RegistryEntry
  | [] => none
  | e :: es => if e.name = name then some e else findEntry name es

/-- Modelled from the spec: resolving a Queue-ID to a live queue, section 4.2
(queue_lib.c is missing). -/
def findQueue (id : Int) : List Queue → Option Queue
  | [] => none
  | q :: qs => if q.id = id then some q else findQueue id qs

/-- Modelled from the spec: storing a new backlog in the queue that
`findQueue` resolves (queue_lib.c is missing). -/
def setBacklog (id : Int) (b : List Nat) : List Queue → List Queue
  | [] => []
  | q :: qs => if q.id = id then { q with backlog := b } :: qs else q :: setBacklog id b qs

/-- Modelled from the spec: the name validation of `register` and `lookup` in
section 4.1 (queue_lib.c is missing): a null or empty name and a name that
violates the length and character constraints is rejected with
`InvalidName`. -/
def QUEUE__verify_queue_name (cfg : EngineCfg) (queue_name_p : Option String) : Int :=
  match queue_name_p with
  | none => cfg.INVALID_NAME
  | some name =>
    if name = "" then cfg.INVALID_NAME
    else if cfg.name_ok name then cfg.rc.QUEUE_RC_SUCCESS
    else cfg.INVALID_NAME

/-- Modelled from the spec: `lookup(name)` of section 4.1 (queue_lib.c is
missing): validates the name, then searches the registry; `NameNotFound` if
absent.  Nothing can be addressed while the registry is not allocated. -/
def QUEUE__find_queue_name (cfg : EngineCfg) (queue_name_p : Option String)
    (s : QueueStack) : Int :=
  match queue_name_p with
  | none => cfg.INVALID_NAME
  | some name =>
    if QUEUE__verify_queue_name cfg (some name) ≠ cfg.rc.QUEUE_RC_SUCCESS then
      cfg.INVALID_NAME
    else
      match s.queue_name_id_base_p with
      | none => cfg.rc.QUEUE_RC_QUEUE_NAME_NOT_PRESENT
      | some registry =>
        match findEntry name registry with
        | some e => e.id
        | none => cfg.rc.QUEUE_RC_QUEUE_NAME_NOT_PRESENT

/-- Modelled from the spec: `register(name, depth)` of section 4.1 with the
depth policy of section 4.2 (queue_lib.c is missing): an invalid name, a name
already registered and a depth that is not positive are rejected; otherwise
the next sequential Queue-ID is allocated, the queue is created with the
requested depth and the entry is inserted.  No queue can be created while the
registry is not allocated. -/
def QUEUE__new (cfg : EngineCfg) (queue_name_p : Option String) (queue_depth : Int)
    (s : QueueStack) : Int × QueueStack :=
  match queue_name_p with
  | none => (cfg.INVALID_NAME, s)
  | some name =>
    if QUEUE__verify_queue_name cfg (some name) ≠ cfg.rc.QUEUE_RC_SUCCESS then
      (cfg.INVALID_NAME, s)
    else
      match s.queue_name_id_base_p with
      | none => (cfg.ALLOCATION_FAILURE, s)
      | some registry =>
        match findEntry name registry with
        | some _ => (cfg.rc.QUEUE_RC_QUEUE_NAME_EXISTS, s)
        | none =>
          if queue_depth ≤ 0 then (cfg.NON_POSITIVE_DEPTH, s)
          else
            let id := s.last_id + 1
            (id, { queue_name_id_base_p := some (⟨name, id⟩ :: registry),
                   queues := ⟨id, name, queue_depth, []⟩ :: s.queues,
                   last_id := id })

/-- Modelled from the spec: `count(id)` of section 4.2 (queue_lib.c is
missing): the current length of the backlog; an unknown Queue-ID is the
failure signal of section 6. -/
def QUEUE__get_count (cfg : EngineCfg) (queue_id : Int) (s : QueueStack) : Int :=
  match findQueue queue_id s.queues with
  | none => cfg.UNKNOWN_QUEUE_ID
  | some q => (q.backlog.length : Int)

/-- Modelled from the spec: `put(id, payload, overwrite)` of section 4.2
(queue_lib.c is missing).  Below capacity the payload is appended at the tail.
At capacity the call fails with `QueueFull` without overwrite, and with
overwrite the head is discarded and the payload appended at the tail. -/
def QUEUE__put_payload (cfg : EngineCfg) (overwrite : Bool) (queue_id : Int) (void_p : Nat)
    (s : QueueStack) : Int × QueueStack :=
  match findQueue queue_id s.queues with
  | none => (cfg.UNKNOWN_QUEUE_ID, s)
  | some q =>
    if (q.backlog.length : Int) < q.capacity then
      (cfg.PUT_SUCCESS, { s with queues := setBacklog queue_id (q.backlog ++ [void_p]) s.queues })
    else if overwrite then
      (cfg.PUT_SUCCESS,
        { s with queues := setBacklog queue_id (q.backlog.tail ++ [void_p]) s.queues })
    else
      (cfg.QUEUE_FULL, s)

/-- Modelled from the spec: `get(id)` of section 4.2 (queue_lib.c is
missing).  An unknown Queue-ID fails at once (the null pointer); a queue that
is not empty gives up its head; on an empty queue the caller is suspended,
which is `none`. -/
def QUEUE__get_payload (queue_id : Int) (s : QueueStack) : Option (Nat × QueueStack) :=
  match findQueue queue_id s.queues with
  | none => some (0, s)
  | some q =>
    match q.backlog with
    | [] => none
    | p :: rest => some (p, { s with queues := setBacklog queue_id rest s.queues })

/-- Modelled from the spec: the private library assembled from the modelled
registry and engine (queue_lib.c is missing). -/
def specLib (cfg : EngineCfg) : QueueLib QueueStack where
  QUEUE__verify_queue_name := fun n s => (QUEUE__verify_queue_name cfg n, s)
  QUEUE__find_queue_name := fun n s => (QUEUE__find_queue_name cfg n s, s)
  QUEUE__new := QUEUE__new cfg
  QUEUE__get_count := fun i s => (QUEUE__get_count cfg i s, s)
  QUEUE__put_payload := QUEUE__put_payload cfg
  QUEUE__get_payload := QUEUE__get_payload

/-- Modelled from the spec: `init()` of section 4.1 on the modelled state:
`queue_init` with the outcome of the allocation (`alloc_ok`), its result
stored in `queue_name_id_base_p` (the list container is missing). -/
def specInit (cfg : EngineCfg) (alloc_ok : Bool) (s : QueueStack) : Ret Int QueueStack :=
  let r := queue_init cfg.rc (if alloc_ok then some ([] : List RegistryEntry) else none)
    s.queue_name_id_base_p
  ⟨r.value, { s with queue_name_id_base_p := r.state }, r.trace⟩

/-- One configuration of the codes, used to evaluate the model on concrete
inputs: success is zero, every failure is negative, the engine reports a
successful put with `true`, and a name may have up to 32 characters. -/
def cfg0 : EngineCfg where
  rc := ⟨0, -1, -2⟩
  ALLOCATION_FAILURE := -3
  INVALID_NAME := -4
  NON_POSITIVE_DEPTH := -5
  UNKNOWN_QUEUE_ID := -6
  QUEUE_FULL := -7
  PUT_SUCCESS := 1
  name_ok := fun n => decide (n.length ≤ 32)

/-- The state after `queue_init` and the creation of the queue "jobs" with
depth 4, which got the Queue-ID 1. -/
def st_jobs : QueueStack := ⟨some [⟨"jobs", 1⟩], [⟨1, "jobs", 4, []⟩], 1⟩

/-- The state after `queue_init`, the creation of the queue "sensor" with
depth 2 (Queue-ID 1) and two puts, of the payloads 101 and 102. -/
def st_sensor_full : QueueStack := ⟨some [⟨"sensor", 1⟩], [⟨1, "sensor", 2, [101, 102]⟩], 1⟩

/-- One step of a single-threaded client of one queue. -/
inductive Op where
  | put (void_p : Nat)
  | get
  deriving DecidableEq, Repr

/-- What a client observed: the payloads whose `queue_put_payload` succeeded,
the payloads `queue_get_payload` returned, both in call order, and the state
left behind. -/
structure Run where
  puts : List Nat
  gets : List Nat
  state : QueueStack

/-- A client performing `ops` on the queue `queue_id` through the API.  A put
counts when the API returns the success value of the engine.  A get on an
empty queue suspends the client, which ends the run. -/
def run (cfg : EngineCfg) (queue_id : Int) : List Op → QueueStack → Run
  | [], s => ⟨[], [], s⟩
  | Op.put p :: ops, s =>
    let r := queue_put_payload cfg.rc (specLib cfg) queue_id p s
    let rest := run cfg queue_id ops r.state
    if r.value = cfg.PUT_SUCCESS then ⟨p :: rest.puts, rest.gets, rest.state⟩ else rest
  | Op.get :: ops, s =>
    match queue_get_payload (specLib cfg) queue_id s with
    | none => ⟨[], [], s⟩
    | some r =>
      let rest := run cfg queue_id ops r.state
      ⟨rest.puts, r.value :: rest.gets, rest.state⟩

/-- Modelled from the spec: the invariant of the process-wide state (section
3): an assigned Queue-ID is above zero and not above the last one assigned,
the capacity of a queue is above zero, and a backlog is never longer than the
capacity. -/
structure QueueStack.Inv (s : QueueStack) : Prop where
  last_nonneg : 0 ≤ s.last_id
  entry_id : ∀ registry, s.queue_name_id_base_p = some registry →
    ∀ e ∈ registry, 0 < e.id ∧ e.id ≤ s.last_id
  queue_ok : ∀ q ∈ s.queues,
    0 < q.id ∧ q.id ≤ s.last_id ∧ 0 < q.capacity ∧ (q.backlog.length : Int) ≤ q.capacity

/-- One call of `queue_new` by a client: the indeterminate content of the
variable `queue_id` at that call, and the two arguments. -/
structure NewCall where
  queue_id₀ : Int
  queue_name_p : Option String
  queue_depth : Int

/-- A client making the calls of `queue_new` in `calls`, one after the other,
through the API.  It collects, in call order, the name and the returned value
of every successful creation: a call with a name that passes the validation
and a returned value above zero (for a rejected name the value returned is
indeterminate and tells nothing). -/
def creations (cfg : EngineCfg) : List NewCall → QueueStack → List (String × Int) × QueueStack
  | [], s => ([], s)
  | c :: cs, s =>
    let r := queue_new cfg.rc (specLib cfg) c.queue_id₀ c.queue_name_p c.queue_depth s
    let rest := creations cfg cs r.state
    match c.queue_name_p with
    | none => rest
    | some name =>
      if QUEUE__verify_queue_name cfg (some name) = cfg.rc.QUEUE_RC_SUCCESS ∧ r.value > 0 then
        ((name, r.value) :: rest.1, rest.2)
      else rest

/-! ## The text functions (src/text/text_lib.c)

A buffer of `char` is a `List Nat` of byte values (0 to 255); the C string in
a buffer is what lies before its first zero byte.  The functions of
`<string.h>` and `<ctype.h>` are modelled as the C standard defines them in
the "C" locale, with a negative argument of a `<ctype.h>` function in no
class.  An `int` is taken to be 32 bits wide: the conversion of a `size_t` to
`int` reduces the value modulo 2^32, and the increment of an `int` that holds
`INT_MAX`, which is undefined, yields `none`.  Loops run on fuel and yield
`none` when it runs out; every function is given fuel that provably
suffices. -/

/-- The largest value of an `int`, taken to be 32 bits wide. -/
def INT_MAX : Int := 2147483647

/-- The conversion of a `size_t` value to `int`, as in
`int ndx = strlen( ... )`: a value up to `INT_MAX` is kept, a larger value is
reduced modulo 2^32 into the range of `int`. -/
def int_of_size_t (n : Nat) : Int := ((n : Int) + 2147483648) % 4294967296 - 2147483648

/-- The C string held in a buffer: the bytes before the first zero byte. -/
def cstr (buf : List Nat) : List Nat := buf.takeWhile (fun c => c != 0)

/-- The function `strlen` of `<string.h>`. -/
def strlen (buf : List Nat) : Nat := (cstr buf).length

/-- The function `strchr` of `<string.h>` for a character other than zero:
the index of its first occurrence in the string, `none` for `NULL`. -/
def strchr (buf : List Nat) (c : Nat) : Option Nat :=
  if c ∈ cstr buf then some ((cstr buf).indexOf c) else none

/-- The value of an object of type `char` holding the byte `b`, after the
promotion to `int`: with a signed `char` the bytes from 0x80 on are
negative. -/
def char_value (char_signed : Bool) (b : Nat) : Int :=
  if char_signed ∧ 128 ≤ b then (b : Int) - 256 else (b : Int)

/-- The function `isgraph` of `<ctype.h>` in the "C" locale. -/
def isgraph (c : Int) : Bool := decide (0x21 ≤ c ∧ c ≤ 0x7E)

/-- The function `isblank` of `<ctype.h>` in the "C" locale: space and
horizontal tab. -/
def isblank (c : Int) : Bool := decide (c = 0x20 ∨ c = 0x09)

/-- The white-space characters of `<ctype.h>` (`isspace` in the "C" locale):
space, tab, line feed, vertical tab, form feed, carriage return. -/
def isspace (c : Int) : Bool :=
  decide (c = 0x20 ∨ c = 0x09 ∨ c = 0x0A ∨ c = 0x0B ∨ c = 0x0C ∨ c = 0x0D)

/-- One access to the buffer handed to a function, with the index used. -/
inductive Access where
  | read (ndx : Int)
  | write (ndx : Int)
  deriving DecidableEq, Repr

/-- The index of an access. -/
def Access.ndx : Access → Int
  | Access.read i => i
  | Access.write i => i

/-- Whether an access is a write. -/
def Access.isWrite : Access → Bool
  | Access.read _ => false
  | Access.write _ => true

/-- The loop of `TEXT__skip_past_whitespace`, `first_char_p` being
`line_of_text_p + ndx`. -/
def TEXT__skip_past_whitespace_loop (char_signed : Bool) (line_of_text_p : List Nat) :
    Nat → Nat → Option Nat
  | 0, _ => none
  | fuel + 1, ndx =>
    if line_of_text_p.getD ndx 0 ≠ 0 then
      if isgraph (char_value char_signed (line_of_text_p.getD ndx 0)) ≠ false then some ndx
      else TEXT__skip_past_whitespace_loop char_signed line_of_text_p fuel (ndx + 1)
    else some ndx

/-- Embedding of `TEXT__skip_past_whitespace`; the pointer returned is
`line_of_text_p` plus the value. -/
def TEXT__skip_past_whitespace (char_signed : Bool) (line_of_text_p : List Nat) : Option Nat :=
  TEXT__skip_past_whitespace_loop char_signed line_of_text_p (strlen line_of_text_p + 1) 0

/-- Embedding of `TEXT__remove_crlf`: the first carriage return and then the
first line feed that `strchr` finds are overwritten with a space. -/
def TEXT__remove_crlf (line_of_text_p : List Nat) : List Nat :=
  let b1 :=
    match strchr line_of_text_p 0x0D with
    | some i => line_of_text_p.set i 0x20
    | none => line_of_text_p
  match strchr b1 0x0A with
  | some i => b1.set i 0x20
  | none => b1

/-- What `TEXT__strip_whitespace` leaves: the buffer and the accesses made
through `line_of_text_p`, in program order. -/
structure Stripped where
  buf : List Nat
  trace : List Access

/-- The loop of `TEXT__strip_whitespace`, entered with the value of `ndx`. -/
def TEXT__strip_whitespace_loop : Nat → Int → List Nat → Option Stripped
  | 0, _, _ => none
  | fuel + 1, ndx, buf =>
    if ndx ≥ 0 then
      if buf.getD ndx.toNat 0 = 0 ∨ buf.getD ndx.toNat 0 = 0x20 ∨ buf.getD ndx.toNat 0 = 0x09 then
        (TEXT__strip_whitespace_loop fuel (ndx - 1) (buf.set ndx.toNat 0)).map
          (fun r => ⟨r.buf, Access.read ndx :: Access.write ndx :: r.trace⟩)
      else some ⟨buf, [Access.read ndx]⟩
    else some ⟨buf, []⟩

/-- Embedding of `TEXT__strip_whitespace`; `ndx` starts with the length of
the string converted to `int`. -/
def TEXT__strip_whitespace (line_of_text_p : List Nat) : Option Stripped :=
  TEXT__strip_whitespace_loop (strlen line_of_text_p + 2)
    (int_of_size_t (strlen line_of_text_p)) line_of_text_p

/-- The loop of `TEXT__is_blank_line`, entered with the value of the `int`
variable `char_ndx` (never negative).  The step `char_ndx ++` on a `char_ndx`
that holds `INT_MAX` overflows, which is undefined: no result. -/
def TEXT__is_blank_line_loop (char_signed : Bool) (line_of_text_p : List Nat) :
    Nat → Nat → Option Bool
  | 0, _ => none
  | fuel + 1, char_ndx =>
    if char_ndx < strlen line_of_text_p then
      if isblank (char_value char_signed (line_of_text_p.getD char_ndx 0)) = false then
        some false
      else if (char_ndx : Int) < INT_MAX then
        TEXT__is_blank_line_loop char_signed line_of_text_p fuel (char_ndx + 1)
      else none
    else some true

/-- Embedding of `TEXT__is_blank_line`; `true` and `false` are the C values 1
and 0. -/
def TEXT__is_blank_line (char_signed : Bool) (line_of_text_p : List Nat) : Option Bool :=
  if strlen line_of_text_p > 0 then
    TEXT__is_blank_line_loop char_signed line_of_text_p (strlen line_of_text_p + 1) 0
  else some true

/-- The test `( c == 0x00 ) || ( c >= 0x80 )` that `TEXT__is_binary` makes on a
`char` holding the byte `b`. -/
def binary_char (char_signed : Bool) (b : Nat) : Bool :=
  decide (char_value char_signed b = 0x00 ∨ char_value char_signed b ≥ 0x80)

/-- What `TEXT__is_binary` yields: the value returned, the accesses made
through `data_p` in program order, and the number of times the body of the
loop was run. -/
structure BinaryScan where
  text_rc : Bool
  trace : List Access
  iterations : Nat

/-- The loop of `TEXT__is_binary` (the branch under `#if 1`), entered with the
value of `char_ndx`. -/
def TEXT__is_binary_loop (char_signed : Bool) (data_p : List Nat) (data_l : Int) :
    Nat → Nat → Option BinaryScan
  | 0, _ => none
  | fuel + 1, char_ndx =>
    if (char_ndx : Int) < data_l - 1 then
      if binary_char char_signed (data_p.getD char_ndx 0) then
        if binary_char char_signed (data_p.getD (char_ndx + 1) 0) then
          some ⟨true, [Access.read char_ndx, Access.read (char_ndx + 1)], 1⟩
        else
          (TEXT__is_binary_loop char_signed data_p data_l fuel (char_ndx + 1)).map
            (fun r => ⟨r.text_rc,
              Access.read char_ndx :: Access.read (char_ndx + 1) :: r.trace, r.iterations + 1⟩)
      else
        (TEXT__is_binary_loop char_signed data_p data_l fuel (char_ndx + 1)).map
          (fun r => ⟨r.text_rc, Access.read char_ndx :: r.trace, r.iterations + 1⟩)
    else some ⟨false, [], 0⟩

/-- Embedding of `TEXT__is_binary`. -/
def TEXT__is_binary (char_signed : Bool) (data_p : List Nat) (data_l : Int) :
    Option BinaryScan :=
  if data_l > 0 then TEXT__is_binary_loop char_signed data_p data_l data_l.toNat 0
  else some ⟨false, [], 0⟩

/-- The state after a `queue_init` whose allocation succeeded. -/
def st_init (cfg : EngineCfg) : QueueStack := (specInit cfg true QueueStack.start).state

/-- Four calls of `queue_new`: "jobs", "jobs" again, the null name with the
variable `queue_id` holding 7, and "sensor". -/
def calls0 : List NewCall :=
  [⟨0, some "jobs", 4⟩, ⟨0, some "jobs", 4⟩, ⟨7, none, 1⟩, ⟨0, some "sensor", 2⟩]

/-- The bytes that `TEXT__strip_whitespace` takes for white space besides the
zero byte: space and horizontal tab. -/
def blank_byte (c : Nat) : Bool := decide (c = 0x20 ∨ c = 0x09)

end LibTools

/-! ## Properties of the API wrappers -/

namespace LibTools

/-- C1: when `list_new( )` returns `NULL`, `queue_init` logs at the fatal
level, leaves `queue_name_id_base_p` null and nevertheless returns
`QUEUE_RC_SUCCESS`: the allocation failure is not propagated.  The value
returned is `QUEUE_RC_SUCCESS` whatever `list_new( )` returned. -/
theorem queue_init_null_returns_success {β : Type} (rc : queue_rc_e) (base : Option β) :
    (queue_init rc (none : Option β) base).value = rc.QUEUE_RC_SUCCESS ∧
    (queue_init rc (none : Option β) base).state = none ∧
    (queue_init rc (none : Option β) base).trace =
      [Event.list_new, Event.log_write MID.MID_FATAL "queue_init"] ∧
    (∀ list_new : Option β, (queue_init rc list_new base).value = rc.QUEUE_RC_SUCCESS) := by
  refine ⟨by simp [queue_init], by simp [queue_init], by simp [queue_init], ?_⟩
  intro list_new
  cases list_new <;> simp [queue_init]

/-- C2: for a name that `QUEUE__verify_queue_name` rejects, `queue_new` makes
no other library call, and the value it returns is the indeterminate content
`queue_id₀` of the variable `queue_id`, whatever that is (so also a value above
zero, which is then logged as a new Queue-ID). -/
theorem queue_new_rejected_name_returns_indeterminate {σ : Type} (rc : queue_rc_e)
    (L : QueueLib σ) (queue_id₀ : Int) (queue_name_p : Option String) (queue_depth : Int)
    (s : σ)
    (hrej : (L.QUEUE__verify_queue_name queue_name_p s).1 ≠ rc.QUEUE_RC_SUCCESS) :
    (queue_new rc L queue_id₀ queue_name_p queue_depth s).value = queue_id₀ ∧
    (queue_new rc L queue_id₀ queue_name_p queue_depth s).state =
      (L.QUEUE__verify_queue_name queue_name_p s).2 ∧
    (queue_new rc L queue_id₀ queue_name_p queue_depth s).trace =
      Event.QUEUE__verify_queue_name queue_name_p ::
        (if queue_id₀ > 0 then [Event.log_write MID.MID_DEBUG_0 "queue_new"] else []) := by
  unfold queue_new
  simp only [if_neg hrej]
  by_cases h : queue_id₀ > 0 <;> simp [h]

/-- Witness for C2: the null name with the modelled library, the variable
`queue_id` holding 7: `queue_new` returns 7. -/
theorem queue_new_rejected_name_returns_indeterminate_witness :
    (queue_new cfg0.rc (specLib cfg0) 7 none 4 QueueStack.start).value = 7 ∧
    (queue_new cfg0.rc (specLib cfg0) 7 none 4 QueueStack.start).state = QueueStack.start ∧
    (queue_new cfg0.rc (specLib cfg0) 7 none 4 QueueStack.start).trace =
      Event.QUEUE__verify_queue_name none ::
        (if (7 : Int) > 0 then [Event.log_write MID.MID_DEBUG_0 "queue_new"] else []) :=
  queue_new_rejected_name_returns_indeterminate cfg0.rc (specLib cfg0) 7 none 4
    QueueStack.start (by decide)

end LibTools

namespace LibTools

/-! ### Lemmas on the modelled containers -/

theorem findEntry_some {name : String} {registry : List RegistryEntry} {e : RegistryEntry}
    (h : findEntry name registry = some e) : e ∈ registry ∧ e.name = name := by
  induction registry with
  | nil => simp [findEntry] at h
  | cons a as ih =>
    unfold findEntry at h
    by_cases ha : a.name = name
    · rw [if_pos ha] at h
      cases h
      exact ⟨List.mem_cons_self _ _, ha⟩
    · rw [if_neg ha] at h
      exact ⟨List.mem_cons_of_mem _ (ih h).1, (ih h).2⟩

theorem findQueue_some {id : Int} {qs : List Queue} {q : Queue}
    (h : findQueue id qs = some q) : q ∈ qs ∧ q.id = id := by
  induction qs with
  | nil => simp [findQueue] at h
  | cons a as ih =>
    unfold findQueue at h
    by_cases ha : a.id = id
    · rw [if_pos ha] at h
      cases h
      exact ⟨List.mem_cons_self _ _, ha⟩
    · rw [if_neg ha] at h
      exact ⟨List.mem_cons_of_mem _ (ih h).1, (ih h).2⟩

theorem findQueue_setBacklog {id : Int} {qs : List Queue} {q : Queue} (b : List Nat)
    (h : findQueue id qs = some q) :
    findQueue id (setBacklog id b qs) = some { q with backlog := b } := by
  induction qs with
  | nil => simp [findQueue] at h
  | cons a as ih =>
    unfold findQueue at h
    unfold setBacklog
    by_cases ha : a.id = id
    · rw [if_pos ha] at h
      cases h
      rw [if_pos ha]
      simp [findQueue, ha]
    · rw [if_neg ha] at h
      rw [if_neg ha]
      simp [findQueue, ha, ih h]

theorem findQueue_setBacklog_other {id id' : Int} (qs : List Queue) (b : List Nat)
    (hne : id' ≠ id) : findQueue id' (setBacklog id b qs) = findQueue id' qs := by
  induction qs with
  | nil => simp [setBacklog]
  | cons a as ih =>
    unfold setBacklog
    by_cases ha : a.id = id
    · rw [if_pos ha]
      have h1 : ¬ a.id = id' := fun h => hne (h.symm.trans ha)
      simp [findQueue, h1]
    · rw [if_neg ha]
      simp [findQueue, ih]

theorem mem_setBacklog {id : Int} {qs : List Queue} {b : List Nat} {x : Queue}
    (h : x ∈ setBacklog id b qs) :
    x ∈ qs ∨ ∃ q ∈ qs, q.id = id ∧ findQueue id qs = some q ∧ x = { q with backlog := b } := by
  induction qs with
  | nil => simp [setBacklog] at h
  | cons a as ih =>
    unfold setBacklog at h
    by_cases ha : a.id = id
    · rw [if_pos ha] at h
      rcases List.mem_cons.1 h with h | h
      · exact Or.inr ⟨a, List.mem_cons_self _ _, ha, by simp [findQueue, ha], h⟩
      · exact Or.inl (List.mem_cons_of_mem _ h)
    · rw [if_neg ha] at h
      rcases List.mem_cons.1 h with h | h
      · exact Or.inl (h ▸ List.mem_cons_self _ _)
      · rcases ih h with h | ⟨q, hq, hid, hf, hx⟩
        · exact Or.inl (List.mem_cons_of_mem _ h)
        · exact Or.inr ⟨q, List.mem_cons_of_mem _ hq, hid, by simp [findQueue, ha, hf], hx⟩

end LibTools

namespace LibTools

/-! ### queue_new and queue_get_id -/

/-- The value `queue_new` returns for a valid name, before the logging. -/
theorem queue_new_valid {σ : Type} (rc : queue_rc_e) (L : QueueLib σ) (queue_id₀ : Int)
    (queue_name_p : Option String) (queue_depth : Int) (s : σ)
    (hvalid : (L.QUEUE__verify_queue_name queue_name_p s).1 = rc.QUEUE_RC_SUCCESS) :
    (((L.QUEUE__find_queue_name queue_name_p (L.QUEUE__verify_queue_name queue_name_p s).2).1
        = rc.QUEUE_RC_QUEUE_NAME_NOT_PRESENT) →
      (queue_new rc L queue_id₀ queue_name_p queue_depth s).value =
        (L.QUEUE__new queue_name_p queue_depth
          (L.QUEUE__find_queue_name queue_name_p
            (L.QUEUE__verify_queue_name queue_name_p s).2).2).1 ∧
      (queue_new rc L queue_id₀ queue_name_p queue_depth s).state =
        (L.QUEUE__new queue_name_p queue_depth
          (L.QUEUE__find_queue_name queue_name_p
            (L.QUEUE__verify_queue_name queue_name_p s).2).2).2 ∧
      (queue_new rc L queue_id₀ queue_name_p queue_depth s).trace.filter Event.isCall =
        [Event.QUEUE__verify_queue_name queue_name_p,
         Event.QUEUE__find_queue_name queue_name_p,
         Event.QUEUE__new queue_name_p queue_depth]) ∧
    (((L.QUEUE__find_queue_name queue_name_p (L.QUEUE__verify_queue_name queue_name_p s).2).1
        ≠ rc.QUEUE_RC_QUEUE_NAME_NOT_PRESENT) →
      (queue_new rc L queue_id₀ queue_name_p queue_depth s).value =
        rc.QUEUE_RC_QUEUE_NAME_EXISTS ∧
      (queue_new rc L queue_id₀ queue_name_p queue_depth s).state =
        (L.QUEUE__find_queue_name queue_name_p
          (L.QUEUE__verify_queue_name queue_name_p s).2).2 ∧
      (queue_new rc L queue_id₀ queue_name_p queue_depth s).trace.filter Event.isCall =
        [Event.QUEUE__verify_queue_name queue_name_p,
         Event.QUEUE__find_queue_name queue_name_p]) := by
  constructor
  · intro habs
    unfold queue_new
    simp only [if_pos hvalid, if_pos habs]
    split <;> simp [List.filter, Event.isCall]
  · intro hpres
    unfold queue_new
    simp only [if_pos hvalid, if_neg hpres]
    split <;> simp [List.filter, Event.isCall]

end LibTools

namespace LibTools

/-- A state in which the queue "jobs" of depth 4 is registered under the
Queue-ID 1 and holds no payload. -/
theorem jobs_created :
    (queue_new cfg0.rc (specLib cfg0) 0 (some "jobs") 4
        (specInit cfg0 true QueueStack.start).state).value = 1 ∧
    (queue_new cfg0.rc (specLib cfg0) 0 (some "jobs") 4
        (specInit cfg0 true QueueStack.start).state).state =
      st_jobs := by
  constructor <;> rfl

/-- C3: for a valid name `queue_new` calls `QUEUE__new` exactly when the
lookup returns `QUEUE_RC_QUEUE_NAME_NOT_PRESENT`.  If it does, `QUEUE__new` is
called once with the name and depth of the caller and its result is returned;
if not, `QUEUE_RC_QUEUE_NAME_EXISTS` is returned and the state is the one left
by the two lookups, which in the modelled library is the state before the
call. -/
theorem queue_new_creates_iff_absent {σ : Type} (rc : queue_rc_e) (L : QueueLib σ)
    (queue_id₀ : Int) (queue_name_p : Option String) (queue_depth : Int) (s : σ)
    (hvalid : (L.QUEUE__verify_queue_name queue_name_p s).1 = rc.QUEUE_RC_SUCCESS) :
    (((L.QUEUE__find_queue_name queue_name_p (L.QUEUE__verify_queue_name queue_name_p s).2).1
        = rc.QUEUE_RC_QUEUE_NAME_NOT_PRESENT) →
      (queue_new rc L queue_id₀ queue_name_p queue_depth s).value =
        (L.QUEUE__new queue_name_p queue_depth
          (L.QUEUE__find_queue_name queue_name_p
            (L.QUEUE__verify_queue_name queue_name_p s).2).2).1 ∧
      (queue_new rc L queue_id₀ queue_name_p queue_depth s).state =
        (L.QUEUE__new queue_name_p queue_depth
          (L.QUEUE__find_queue_name queue_name_p
            (L.QUEUE__verify_queue_name queue_name_p s).2).2).2 ∧
      (queue_new rc L queue_id₀ queue_name_p queue_depth s).trace.filter Event.isCall =
        [Event.QUEUE__verify_queue_name queue_name_p,
         Event.QUEUE__find_queue_name queue_name_p,
         Event.QUEUE__new queue_name_p queue_depth]) ∧
    (((L.QUEUE__find_queue_name queue_name_p (L.QUEUE__verify_queue_name queue_name_p s).2).1
        ≠ rc.QUEUE_RC_QUEUE_NAME_NOT_PRESENT) →
      (queue_new rc L queue_id₀ queue_name_p queue_depth s).value =
        rc.QUEUE_RC_QUEUE_NAME_EXISTS ∧
      (queue_new rc L queue_id₀ queue_name_p queue_depth s).state =
        (L.QUEUE__find_queue_name queue_name_p
          (L.QUEUE__verify_queue_name queue_name_p s).2).2 ∧
      (queue_new rc L queue_id₀ queue_name_p queue_depth s).trace.filter Event.isCall =
        [Event.QUEUE__verify_queue_name queue_name_p,
         Event.QUEUE__find_queue_name queue_name_p]) ∧
    (∀ (cfg : EngineCfg) (s₀ : QueueStack),
      ((specLib cfg).QUEUE__find_queue_name queue_name_p
        ((specLib cfg).QUEUE__verify_queue_name queue_name_p s₀).2).2 = s₀) :=
  ⟨(queue_new_valid rc L queue_id₀ queue_name_p queue_depth s hvalid).1,
   (queue_new_valid rc L queue_id₀ queue_name_p queue_depth s hvalid).2,
   fun _ _ => rfl⟩

/-- Witness for C3: "jobs" is registered with depth 4 under the Queue-ID 1;
creating "jobs" again with depth 9 returns `QUEUE_RC_QUEUE_NAME_EXISTS` and
leaves the state, with the ID 1 and the depth 4, as it was. -/
theorem queue_new_creates_iff_absent_witness :
    (queue_new cfg0.rc (specLib cfg0) 0 (some "jobs") 9
        st_jobs).value =
      cfg0.rc.QUEUE_RC_QUEUE_NAME_EXISTS ∧
    (queue_new cfg0.rc (specLib cfg0) 0 (some "jobs") 9
        st_jobs).state =
      st_jobs :=
  ⟨((queue_new_creates_iff_absent cfg0.rc (specLib cfg0) 0 (some "jobs") 9
      st_jobs (by decide)).2.1 (by decide)).1,
   ((queue_new_creates_iff_absent cfg0.rc (specLib cfg0) 0 (some "jobs") 9
      st_jobs (by decide)).2.1 (by decide)).2.1⟩

end LibTools

namespace LibTools

theorem verify_valid_some {cfg : EngineCfg} (hwf : cfg.WF) {queue_name_p : Option String}
    (hvalid : QUEUE__verify_queue_name cfg queue_name_p = cfg.rc.QUEUE_RC_SUCCESS) :
    ∃ name, queue_name_p = some name := by
  cases queue_name_p with
  | none => exact absurd hvalid hwf.invalid_ne
  | some name => exact ⟨name, rfl⟩

theorem verify_invalid {cfg : EngineCfg} {queue_name_p : Option String}
    (hrej : QUEUE__verify_queue_name cfg queue_name_p ≠ cfg.rc.QUEUE_RC_SUCCESS) :
    QUEUE__verify_queue_name cfg queue_name_p = cfg.INVALID_NAME := by
  unfold QUEUE__verify_queue_name at hrej ⊢
  cases queue_name_p with
  | none => rfl
  | some name =>
    simp only at hrej ⊢
    by_cases h1 : name = ""
    · simp [h1]
    · by_cases h2 : cfg.name_ok name = true
      · simp [h1, h2] at hrej
      · simp [h1, h2]

/-- With a depth that is not positive the modelled `QUEUE__new` fails and
leaves the state as it was. -/
theorem QUEUE__new_non_positive_depth {cfg : EngineCfg} (hwf : cfg.WF)
    (queue_name_p : Option String) (queue_depth : Int) (s : QueueStack)
    (hdepth : queue_depth ≤ 0) :
    (QUEUE__new cfg queue_name_p queue_depth s).1 ≤ 0 ∧
    (QUEUE__new cfg queue_name_p queue_depth s).2 = s := by
  unfold QUEUE__new
  cases queue_name_p with
  | none => exact ⟨hwf.invalid_le, rfl⟩
  | some name =>
    simp only
    split
    · exact ⟨hwf.invalid_le, rfl⟩
    · split
      · exact ⟨hwf.alloc_le, rfl⟩
      · split
        · exact ⟨hwf.exists_le, rfl⟩
        · exact ⟨hwf.depth_le, rfl⟩

/-- C4: for a valid name that is not registered and a depth that is not
positive, `queue_new` hands name and depth to `QUEUE__new` (register), which
rejects them: the value returned is the failure code of `QUEUE__new`, it is
not above zero, the state is unchanged (no queue is created), and with an
allocated registry the code is the one of the depth error. -/
theorem queue_new_rejects_non_positive_depth (cfg : EngineCfg) (hwf : cfg.WF)
    (queue_id₀ : Int) (name : String) (queue_depth : Int) (s : QueueStack)
    (hvalid : QUEUE__verify_queue_name cfg (some name) = cfg.rc.QUEUE_RC_SUCCESS)
    (habsent : ∀ registry, s.queue_name_id_base_p = some registry →
      findEntry name registry = none)
    (hdepth : queue_depth ≤ 0) :
    (queue_new cfg.rc (specLib cfg) queue_id₀ (some name) queue_depth s).value =
      (QUEUE__new cfg (some name) queue_depth s).1 ∧
    (queue_new cfg.rc (specLib cfg) queue_id₀ (some name) queue_depth s).value ≤ 0 ∧
    (queue_new cfg.rc (specLib cfg) queue_id₀ (some name) queue_depth s).state = s ∧
    (queue_new cfg.rc (specLib cfg) queue_id₀ (some name) queue_depth s).trace =
      [Event.QUEUE__verify_queue_name (some name),
       Event.QUEUE__find_queue_name (some name),
       Event.QUEUE__new (some name) queue_depth] ∧
    (s.queue_name_id_base_p ≠ none →
      (queue_new cfg.rc (specLib cfg) queue_id₀ (some name) queue_depth s).value =
        cfg.NON_POSITIVE_DEPTH) := by
  have hfind : QUEUE__find_queue_name cfg (some name) s =
      cfg.rc.QUEUE_RC_QUEUE_NAME_NOT_PRESENT := by
    unfold QUEUE__find_queue_name
    simp only [hvalid, ne_eq, not_true_eq_false, if_false]
    cases hb : s.queue_name_id_base_p with
    | none => rfl
    | some registry => simp [habsent registry hb]
  have hnew := QUEUE__new_non_positive_depth hwf (some name) queue_depth s hdepth
  have hle : ¬ (QUEUE__new cfg (some name) queue_depth s).1 > 0 := not_lt.2 hnew.1
  have hq : queue_new cfg.rc (specLib cfg) queue_id₀ (some name) queue_depth s =
      ⟨(QUEUE__new cfg (some name) queue_depth s).1, (QUEUE__new cfg (some name) queue_depth s).2,
        [Event.QUEUE__verify_queue_name (some name),
         Event.QUEUE__find_queue_name (some name),
         Event.QUEUE__new (some name) queue_depth]⟩ := by
    unfold queue_new
    simp only [specLib, hvalid, hfind, if_true, if_neg hle]
  rw [hq]
  refine ⟨rfl, hnew.1, hnew.2, rfl, ?_⟩
  intro hb
  show (QUEUE__new cfg (some name) queue_depth s).1 = cfg.NON_POSITIVE_DEPTH
  unfold QUEUE__new
  simp only [hvalid, ne_eq, not_true_eq_false, if_false]
  cases hb2 : s.queue_name_id_base_p with
  | none => exact absurd hb2 hb
  | some registry => simp [habsent registry hb2, hdepth]

/-- The configuration `cfg0` meets the constraints on the codes. -/
theorem cfg0_wf : cfg0.WF :=
  ⟨by decide, by decide, by decide, by decide, by decide, by decide, by decide, by decide⟩

/-- Witness for C4: after `queue_init`, creating "jobs" with depth 0 is
rejected. -/
theorem queue_new_rejects_non_positive_depth_witness :
    (queue_new cfg0.rc (specLib cfg0) 0 (some "jobs") 0 ⟨some [], [], 0⟩).value =
      (QUEUE__new cfg0 (some "jobs") 0 ⟨some [], [], 0⟩).1 ∧
    (queue_new cfg0.rc (specLib cfg0) 0 (some "jobs") 0 ⟨some [], [], 0⟩).value ≤ 0 ∧
    (queue_new cfg0.rc (specLib cfg0) 0 (some "jobs") 0 ⟨some [], [], 0⟩).state =
      ⟨some [], [], 0⟩ ∧
    (queue_new cfg0.rc (specLib cfg0) 0 (some "jobs") 0 ⟨some [], [], 0⟩).trace =
      [Event.QUEUE__verify_queue_name (some "jobs"),
       Event.QUEUE__find_queue_name (some "jobs"),
       Event.QUEUE__new (some "jobs") 0] ∧
    ((⟨some [], [], 0⟩ : QueueStack).queue_name_id_base_p ≠ none →
      (queue_new cfg0.rc (specLib cfg0) 0 (some "jobs") 0 ⟨some [], [], 0⟩).value =
        cfg0.NON_POSITIVE_DEPTH) :=
  queue_new_rejects_non_positive_depth cfg0 cfg0_wf 0 "jobs" 0 ⟨some [], [], 0⟩
    (by decide) (by intro registry h; cases h; rfl) (by decide)

end LibTools

namespace LibTools

/-- What `queue_get_id` does with any private library: the lookup is made only
for a name that passed the validation, and the value of the last library call
is returned. -/
theorem queue_get_id_generic {σ : Type} (rc : queue_rc_e) (L : QueueLib σ)
    (queue_name_p : Option String) (s : σ) :
    ((L.QUEUE__verify_queue_name queue_name_p s).1 ≠ rc.QUEUE_RC_SUCCESS →
      (queue_get_id rc L queue_name_p s).value = (L.QUEUE__verify_queue_name queue_name_p s).1 ∧
      (queue_get_id rc L queue_name_p s).state = (L.QUEUE__verify_queue_name queue_name_p s).2 ∧
      (queue_get_id rc L queue_name_p s).trace.filter Event.isCall =
        [Event.QUEUE__verify_queue_name queue_name_p]) ∧
    ((L.QUEUE__verify_queue_name queue_name_p s).1 = rc.QUEUE_RC_SUCCESS →
      (queue_get_id rc L queue_name_p s).value =
        (L.QUEUE__find_queue_name queue_name_p
          (L.QUEUE__verify_queue_name queue_name_p s).2).1 ∧
      (queue_get_id rc L queue_name_p s).state =
        (L.QUEUE__find_queue_name queue_name_p
          (L.QUEUE__verify_queue_name queue_name_p s).2).2 ∧
      (queue_get_id rc L queue_name_p s).trace.filter Event.isCall =
        [Event.QUEUE__verify_queue_name queue_name_p,
         Event.QUEUE__find_queue_name queue_name_p]) := by
  constructor
  · intro hrej
    unfold queue_get_id
    simp only [if_true, if_neg hrej]
    split <;> simp [List.filter, Event.isCall]
  · intro hvalid
    unfold queue_get_id
    simp only [if_true, if_pos hvalid]
    split <;> simp [List.filter, Event.isCall]

/-- C5: `queue_get_id` validates, then looks up.  With any private library: a
name that fails the validation gets the validation code and no lookup is made,
a valid name gets the result of `QUEUE__find_queue_name`.  With the modelled
library in a state that meets the invariant: the state is never changed, the
validation code is not above zero, a registered name gets its Queue-ID, which
is above zero, and an absent name gets
`QUEUE_RC_QUEUE_NAME_NOT_PRESENT`. -/
theorem queue_get_id_wraps_lookup (cfg : EngineCfg) (hwf : cfg.WF) (s : QueueStack)
    (hinv : s.Inv) (queue_name_p : Option String) :
    (∀ {σ : Type} (rc : queue_rc_e) (L : QueueLib σ) (t : σ),
      ((L.QUEUE__verify_queue_name queue_name_p t).1 ≠ rc.QUEUE_RC_SUCCESS →
        (queue_get_id rc L queue_name_p t).value =
          (L.QUEUE__verify_queue_name queue_name_p t).1 ∧
        (queue_get_id rc L queue_name_p t).state =
          (L.QUEUE__verify_queue_name queue_name_p t).2 ∧
        (queue_get_id rc L queue_name_p t).trace.filter Event.isCall =
          [Event.QUEUE__verify_queue_name queue_name_p]) ∧
      ((L.QUEUE__verify_queue_name queue_name_p t).1 = rc.QUEUE_RC_SUCCESS →
        (queue_get_id rc L queue_name_p t).value =
          (L.QUEUE__find_queue_name queue_name_p
            (L.QUEUE__verify_queue_name queue_name_p t).2).1 ∧
        (queue_get_id rc L queue_name_p t).state =
          (L.QUEUE__find_queue_name queue_name_p
            (L.QUEUE__verify_queue_name queue_name_p t).2).2 ∧
        (queue_get_id rc L queue_name_p t).trace.filter Event.isCall =
          [Event.QUEUE__verify_queue_name queue_name_p,
           Event.QUEUE__find_queue_name queue_name_p])) ∧
    (queue_get_id cfg.rc (specLib cfg) queue_name_p s).state = s ∧
    (QUEUE__verify_queue_name cfg queue_name_p ≠ cfg.rc.QUEUE_RC_SUCCESS →
      (queue_get_id cfg.rc (specLib cfg) queue_name_p s).value = cfg.INVALID_NAME ∧
      (queue_get_id cfg.rc (specLib cfg) queue_name_p s).value ≤ 0) ∧
    (QUEUE__verify_queue_name cfg queue_name_p = cfg.rc.QUEUE_RC_SUCCESS →
      ∀ name, queue_name_p = some name →
        (∀ registry e, s.queue_name_id_base_p = some registry →
          findEntry name registry = some e →
          (queue_get_id cfg.rc (specLib cfg) queue_name_p s).value = e.id ∧ 0 < e.id) ∧
        ((∀ registry, s.queue_name_id_base_p = some registry →
            findEntry name registry = none) →
          (queue_get_id cfg.rc (specLib cfg) queue_name_p s).value =
            cfg.rc.QUEUE_RC_QUEUE_NAME_NOT_PRESENT)) := by
  refine ⟨fun rc L t => queue_get_id_generic rc L queue_name_p t, ?_, ?_, ?_⟩
  · by_cases hv : QUEUE__verify_queue_name cfg queue_name_p = cfg.rc.QUEUE_RC_SUCCESS
    · exact ((queue_get_id_generic cfg.rc (specLib cfg) queue_name_p s).2 hv).2.1
    · exact ((queue_get_id_generic cfg.rc (specLib cfg) queue_name_p s).1 hv).2.1
  · intro hrej
    have h := ((queue_get_id_generic cfg.rc (specLib cfg) queue_name_p s).1 hrej).1
    have h2 : (queue_get_id cfg.rc (specLib cfg) queue_name_p s).value = cfg.INVALID_NAME :=
      h.trans (verify_invalid hrej)
    exact ⟨h2, h2 ▸ hwf.invalid_le⟩
  · intro hvalid name hname
    subst hname
    have h : (queue_get_id cfg.rc (specLib cfg) (some name) s).value =
        QUEUE__find_queue_name cfg (some name) s :=
      ((queue_get_id_generic cfg.rc (specLib cfg) (some name) s).2 hvalid).1
    have hf : ∀ registry, s.queue_name_id_base_p = some registry →
        QUEUE__find_queue_name cfg (some name) s =
          match findEntry name registry with
          | some e => e.id
          | none => cfg.rc.QUEUE_RC_QUEUE_NAME_NOT_PRESENT := by
      intro registry hb
      unfold QUEUE__find_queue_name
      simp only [hvalid, ne_eq, not_true_eq_false, if_false, hb]
    constructor
    · intro registry e hb he
      rw [h, hf registry hb, he]
      exact ⟨rfl, (hinv.entry_id registry hb e (findEntry_some he).1).1⟩
    · intro habs
      rw [h]
      cases hb : s.queue_name_id_base_p with
      | none =>
        unfold QUEUE__find_queue_name
        simp only [hvalid, ne_eq, not_true_eq_false, if_false, hb]
      | some registry => rw [hf registry hb, habs registry hb]

end LibTools

namespace LibTools

/-- The state `st_jobs` meets the invariant. -/
theorem st_jobs_inv : st_jobs.Inv := by
  refine ⟨by decide, ?_, ?_⟩
  · intro registry h e he
    cases h
    simp only [List.mem_singleton] at he
    subst he
    decide
  · intro q hq
    simp only [st_jobs, List.mem_singleton] at hq
    subst hq
    decide

/-- Witness for C5: in the state `st_jobs` the lookup of "jobs" leaves the
state as it is and returns the Queue-ID 1. -/
theorem queue_get_id_wraps_lookup_witness :
    (queue_get_id cfg0.rc (specLib cfg0) (some "jobs") st_jobs).state = st_jobs ∧
    (queue_get_id cfg0.rc (specLib cfg0) (some "jobs") st_jobs).value = 1 :=
  ⟨(queue_get_id_wraps_lookup cfg0 cfg0_wf st_jobs st_jobs_inv (some "jobs")).2.1,
   (((queue_get_id_wraps_lookup cfg0 cfg0_wf st_jobs st_jobs_inv (some "jobs")).2.2.2
      (by decide) "jobs" rfl).1 [⟨"jobs", 1⟩] ⟨"jobs", 1⟩ rfl (by decide)).1⟩

/-! ### The put wrappers -/

/-- Both put wrappers call the engine once and return its value and state;
the level of the one diagnostic that follows depends on the value, the value
does not depend on the diagnostic. -/
theorem put_payload_body_eq {σ : Type} (rc : queue_rc_e) (L : QueueLib σ) (overwrite : Bool)
    (queue_id : Int) (void_p : Nat) (s : σ) :
    put_payload_body rc L overwrite queue_id void_p s =
      ⟨(L.QUEUE__put_payload overwrite queue_id void_p s).1,
       (L.QUEUE__put_payload overwrite queue_id void_p s).2,
       [Event.QUEUE__put_payload overwrite queue_id void_p,
        Event.log_write
          (if (L.QUEUE__put_payload overwrite queue_id void_p s).1 = c_true
            then MID.MID_DEBUG_0 else MID.MID_FATAL) "queue_put_payload"]⟩ := by
  unfold put_payload_body
  simp only [if_true]
  split <;> simp

/-- C6: `queue_put_payload` is the engine put with overwrite false and
`queue_override_put_payload` the engine put with overwrite true: each makes
one call of `QUEUE__put_payload` with the id and payload of the caller,
returns its value and leaves its state; one diagnostic follows the call. -/
theorem put_wrappers_refine_engine_put {σ : Type} (rc : queue_rc_e) (L : QueueLib σ)
    (queue_id : Int) (void_p : Nat) (s : σ) :
    queue_put_payload rc L queue_id void_p s =
      ⟨(L.QUEUE__put_payload false queue_id void_p s).1,
       (L.QUEUE__put_payload false queue_id void_p s).2,
       [Event.QUEUE__put_payload false queue_id void_p,
        Event.log_write
          (if (L.QUEUE__put_payload false queue_id void_p s).1 = c_true
            then MID.MID_DEBUG_0 else MID.MID_FATAL) "queue_put_payload"]⟩ ∧
    queue_override_put_payload rc L queue_id void_p s =
      ⟨(L.QUEUE__put_payload true queue_id void_p s).1,
       (L.QUEUE__put_payload true queue_id void_p s).2,
       [Event.QUEUE__put_payload true queue_id void_p,
        Event.log_write
          (if (L.QUEUE__put_payload true queue_id void_p s).1 = c_true
            then MID.MID_DEBUG_0 else MID.MID_FATAL) "queue_put_payload"]⟩ :=
  ⟨put_payload_body_eq rc L false queue_id void_p s,
   put_payload_body_eq rc L true queue_id void_p s⟩

/-- The put wrappers test the returned code against `true`: unless
`QUEUE_RC_SUCCESS` is that number, returning `QUEUE_RC_SUCCESS` goes with the
fatal diagnostic and the success diagnostic goes with returning `true`. -/
theorem put_payload_body_mismatch {σ : Type} (rc : queue_rc_e) (L : QueueLib σ)
    (overwrite : Bool) (queue_id : Int) (void_p : Nat) (s : σ)
    (hne : rc.QUEUE_RC_SUCCESS ≠ c_true) :
    ((put_payload_body rc L overwrite queue_id void_p s).value = rc.QUEUE_RC_SUCCESS →
      (put_payload_body rc L overwrite queue_id void_p s).trace =
        [Event.QUEUE__put_payload overwrite queue_id void_p,
         Event.log_write MID.MID_FATAL "queue_put_payload"]) ∧
    (Event.log_write MID.MID_DEBUG_0 "queue_put_payload" ∈
        (put_payload_body rc L overwrite queue_id void_p s).trace →
      (put_payload_body rc L overwrite queue_id void_p s).value = c_true ∧
      (put_payload_body rc L overwrite queue_id void_p s).value ≠ rc.QUEUE_RC_SUCCESS) := by
  rw [put_payload_body_eq]
  constructor
  · intro h
    have h1 : ¬ (L.QUEUE__put_payload overwrite queue_id void_p s).1 = c_true := by
      intro h2
      exact hne (h.symm.trans h2)
    simp only [if_neg h1]
  · intro h
    by_cases h1 : (L.QUEUE__put_payload overwrite queue_id void_p s).1 = c_true
    · exact ⟨h1, fun h2 => hne (h2.symm.trans h1)⟩
    · simp [if_neg h1] at h

/-- C7: `queue_put_payload` and `queue_override_put_payload` test the code
they return against `true`, not against `QUEUE_RC_SUCCESS`.  Unless the two
are the same number, a call that returns `QUEUE_RC_SUCCESS` writes the fatal
diagnostic, and a call that writes the success diagnostic returns `true`,
which is not `QUEUE_RC_SUCCESS`: returning `QUEUE_RC_SUCCESS` and writing the
success diagnostic never go together. -/
theorem put_wrappers_success_code_mismatch {σ : Type} (rc : queue_rc_e) (L : QueueLib σ)
    (queue_id : Int) (void_p : Nat) (s : σ)
    (hne : rc.QUEUE_RC_SUCCESS ≠ c_true) :
    (((queue_put_payload rc L queue_id void_p s).value = rc.QUEUE_RC_SUCCESS →
        (queue_put_payload rc L queue_id void_p s).trace =
          [Event.QUEUE__put_payload false queue_id void_p,
           Event.log_write MID.MID_FATAL "queue_put_payload"]) ∧
      (Event.log_write MID.MID_DEBUG_0 "queue_put_payload" ∈
          (queue_put_payload rc L queue_id void_p s).trace →
        (queue_put_payload rc L queue_id void_p s).value = c_true ∧
        (queue_put_payload rc L queue_id void_p s).value ≠ rc.QUEUE_RC_SUCCESS)) ∧
    (((queue_override_put_payload rc L queue_id void_p s).value = rc.QUEUE_RC_SUCCESS →
        (queue_override_put_payload rc L queue_id void_p s).trace =
          [Event.QUEUE__put_payload true queue_id void_p,
           Event.log_write MID.MID_FATAL "queue_put_payload"]) ∧
      (Event.log_write MID.MID_DEBUG_0 "queue_put_payload" ∈
          (queue_override_put_payload rc L queue_id void_p s).trace →
        (queue_override_put_payload rc L queue_id void_p s).value = c_true ∧
        (queue_override_put_payload rc L queue_id void_p s).value ≠ rc.QUEUE_RC_SUCCESS)) :=
  ⟨put_payload_body_mismatch rc L false queue_id void_p s hne,
   put_payload_body_mismatch rc L true queue_id void_p s hne⟩

/-- Witness for C7: with `QUEUE_RC_SUCCESS` zero and an engine that reports a
put with `true`, putting the payload 4096 on the empty queue 1 of `st_jobs`
stores it and writes the success diagnostic, and the value returned is 1, not
`QUEUE_RC_SUCCESS`. -/
theorem put_wrappers_success_code_mismatch_witness :
    ((queue_put_payload cfg0.rc (specLib cfg0) 1 4096 st_jobs).value = c_true ∧
      (queue_put_payload cfg0.rc (specLib cfg0) 1 4096 st_jobs).value ≠
        cfg0.rc.QUEUE_RC_SUCCESS) ∧
    findQueue 1 (queue_put_payload cfg0.rc (specLib cfg0) 1 4096 st_jobs).state.queues =
      some ⟨1, "jobs", 4, [4096]⟩ :=
  ⟨(put_wrappers_success_code_mismatch cfg0.rc (specLib cfg0) 1 4096 st_jobs
    (by decide)).1.2 (by decide), by decide⟩

end LibTools

namespace LibTools

/-! ### The modelled engine on a live queue -/

theorem QUEUE__put_payload_room (cfg : EngineCfg) (overwrite : Bool) {queue_id : Int}
    (void_p : Nat) {s : QueueStack} {q : Queue}
    (hq : findQueue queue_id s.queues = some q)
    (hroom : (q.backlog.length : Int) < q.capacity) :
    QUEUE__put_payload cfg overwrite queue_id void_p s =
      (cfg.PUT_SUCCESS,
        { s with queues := setBacklog queue_id (q.backlog ++ [void_p]) s.queues }) := by
  unfold QUEUE__put_payload
  simp only [hq, if_pos hroom]

theorem QUEUE__put_payload_full (cfg : EngineCfg) {queue_id : Int}
    (void_p : Nat) {s : QueueStack} {q : Queue}
    (hq : findQueue queue_id s.queues = some q)
    (hfull : ¬ (q.backlog.length : Int) < q.capacity) :
    QUEUE__put_payload cfg false queue_id void_p s = (cfg.QUEUE_FULL, s) := by
  unfold QUEUE__put_payload
  simp only [hq, if_neg hfull, Bool.false_eq_true, if_false]

theorem QUEUE__put_payload_overwrite (cfg : EngineCfg) {queue_id : Int}
    (void_p : Nat) {s : QueueStack} {q : Queue}
    (hq : findQueue queue_id s.queues = some q)
    (hfull : ¬ (q.backlog.length : Int) < q.capacity) :
    QUEUE__put_payload cfg true queue_id void_p s =
      (cfg.PUT_SUCCESS,
        { s with queues := setBacklog queue_id (q.backlog.tail ++ [void_p]) s.queues }) := by
  unfold QUEUE__put_payload
  simp only [hq, if_neg hfull, if_true]

theorem QUEUE__get_payload_empty {queue_id : Int} {s : QueueStack} {q : Queue}
    (hq : findQueue queue_id s.queues = some q) (hb : q.backlog = []) :
    QUEUE__get_payload queue_id s = none := by
  unfold QUEUE__get_payload
  simp only [hq, hb]

theorem QUEUE__get_payload_head {queue_id : Int} {s : QueueStack} {q : Queue}
    {p : Nat} {rest : List Nat}
    (hq : findQueue queue_id s.queues = some q) (hb : q.backlog = p :: rest) :
    QUEUE__get_payload queue_id s =
      some (p, { s with queues := setBacklog queue_id rest s.queues }) := by
  unfold QUEUE__get_payload
  simp only [hq, hb]

/-! ### The invariant is kept by every operation of the modelled library -/

theorem start_inv : QueueStack.start.Inv := by
  refine ⟨le_refl _, ?_, ?_⟩
  · intro registry h
    cases h
  · intro q hq
    cases hq

theorem specInit_inv (cfg : EngineCfg) (alloc_ok : Bool) {s : QueueStack} (hinv : s.Inv) :
    (specInit cfg alloc_ok s).state.Inv := by
  refine ⟨hinv.last_nonneg, ?_, hinv.queue_ok⟩
  intro registry h e he
  cases alloc_ok
  · simp [specInit, queue_init] at h
  · simp [specInit, queue_init] at h
    subst h
    cases he

theorem QUEUE__new_inv (cfg : EngineCfg) (queue_name_p : Option String) (queue_depth : Int)
    {s : QueueStack} (hinv : s.Inv) : (QUEUE__new cfg queue_name_p queue_depth s).2.Inv := by
  unfold QUEUE__new
  cases queue_name_p with
  | none => exact hinv
  | some name =>
    simp only
    split
    · exact hinv
    · split
      · exact hinv
      · rename_i registry hb
        split
        · exact hinv
        · by_cases hd : queue_depth ≤ 0
          · rw [if_pos hd]
            exact hinv
          · rw [if_neg hd]
            have h0 := hinv.last_nonneg
            refine ⟨by show 0 ≤ s.last_id + 1; omega, ?_, ?_⟩
            · intro registry2 h e he
              simp only [Option.some.injEq] at h
              subst h
              rcases List.mem_cons.1 he with he | he
              · subst he
                show 0 < s.last_id + 1 ∧ s.last_id + 1 ≤ s.last_id + 1
                omega
              · have := hinv.entry_id registry hb e he
                show 0 < e.id ∧ e.id ≤ s.last_id + 1
                omega
            · intro q hq
              rcases List.mem_cons.1 hq with hq | hq
              · subst hq
                show 0 < s.last_id + 1 ∧ s.last_id + 1 ≤ s.last_id + 1 ∧ 0 < queue_depth ∧
                  ((([] : List Nat).length : Nat) : Int) ≤ queue_depth
                simp only [List.length_nil, Nat.cast_zero]
                omega
              · have := hinv.queue_ok q hq
                show 0 < q.id ∧ q.id ≤ s.last_id + 1 ∧ 0 < q.capacity ∧
                  (q.backlog.length : Int) ≤ q.capacity
                omega

theorem setBacklog_inv {queue_id : Int} {s : QueueStack} {q : Queue} (b : List Nat)
    (hinv : s.Inv) (hq : findQueue queue_id s.queues = some q)
    (hb : (b.length : Int) ≤ q.capacity) :
    QueueStack.Inv { s with queues := setBacklog queue_id b s.queues } := by
  refine ⟨hinv.last_nonneg, hinv.entry_id, ?_⟩
  intro x hx
  rcases mem_setBacklog hx with hx | ⟨q2, hq2, _, hf, hx⟩
  · exact hinv.queue_ok x hx
  · have heq : q2 = q := Option.some.inj (hf.symm.trans hq)
    subst heq
    subst hx
    have := hinv.queue_ok q2 hq2
    exact ⟨this.1, this.2.1, this.2.2.1, hb⟩

theorem QUEUE__put_payload_inv (cfg : EngineCfg) (overwrite : Bool) (queue_id : Int)
    (void_p : Nat) {s : QueueStack} (hinv : s.Inv) :
    (QUEUE__put_payload cfg overwrite queue_id void_p s).2.Inv := by
  cases hq : findQueue queue_id s.queues with
  | none =>
    unfold QUEUE__put_payload
    simp only [hq]
    exact hinv
  | some q =>
    have hqi := hinv.queue_ok q (findQueue_some hq).1
    by_cases hroom : (q.backlog.length : Int) < q.capacity
    · rw [QUEUE__put_payload_room cfg overwrite void_p hq hroom]
      apply setBacklog_inv _ hinv hq
      simp only [List.length_append, List.length_singleton, Nat.cast_add, Nat.cast_one]
      omega
    · cases overwrite
      · rw [QUEUE__put_payload_full cfg void_p hq hroom]
        exact hinv
      · rw [QUEUE__put_payload_overwrite cfg void_p hq hroom]
        apply setBacklog_inv _ hinv hq
        simp only [List.length_append, List.length_singleton, List.length_tail, Nat.cast_add,
          Nat.cast_one]
        omega

theorem QUEUE__get_payload_inv (queue_id : Int) {s : QueueStack} (hinv : s.Inv)
    {p : Nat} {t : QueueStack} (h : QUEUE__get_payload queue_id s = some (p, t)) : t.Inv := by
  cases hq : findQueue queue_id s.queues with
  | none =>
    unfold QUEUE__get_payload at h
    simp only [hq, Option.some.injEq, Prod.mk.injEq] at h
    exact h.2 ▸ hinv
  | some q =>
    have hqi := hinv.queue_ok q (findQueue_some hq).1
    cases hb : q.backlog with
    | nil =>
      rw [QUEUE__get_payload_empty hq hb] at h
      cases h
    | cons x rest =>
      rw [QUEUE__get_payload_head hq hb] at h
      simp only [Option.some.injEq, Prod.mk.injEq] at h
      rw [← h.2]
      apply setBacklog_inv _ hinv hq
      rw [hb] at hqi
      simp only [List.length_cons, Nat.cast_add, Nat.cast_one] at hqi
      omega

end LibTools

namespace LibTools

/-! ### FIFO delivery, the full queue and the overwriting put -/

/-- The FIFO law of a client run, for a live queue: the backlog before the run
followed by the payloads put with success is the payloads got followed by the
backlog after the run. -/
theorem run_fifo (cfg : EngineCfg) (hwf : cfg.WF) (queue_id : Int) (ops : List Op) :
    ∀ (s : QueueStack) (q : Queue), findQueue queue_id s.queues = some q →
      ∃ q2, findQueue queue_id (run cfg queue_id ops s).state.queues = some q2 ∧
        q.backlog ++ (run cfg queue_id ops s).puts =
          (run cfg queue_id ops s).gets ++ q2.backlog ∧
        q2.capacity = q.capacity := by
  induction ops with
  | nil =>
    intro s q hq
    exact ⟨q, hq, by simp [run], rfl⟩
  | cons op ops ih =>
    intro s q hq
    cases op with
    | put p =>
      by_cases hroom : (q.backlog.length : Int) < q.capacity
      · have he := QUEUE__put_payload_room cfg false p hq hroom
        have hr : queue_put_payload cfg.rc (specLib cfg) queue_id p s =
            ⟨cfg.PUT_SUCCESS,
              { s with queues := setBacklog queue_id (q.backlog ++ [p]) s.queues },
              [Event.QUEUE__put_payload false queue_id p,
               Event.log_write (if cfg.PUT_SUCCESS = c_true then MID.MID_DEBUG_0
                 else MID.MID_FATAL) "queue_put_payload"]⟩ := by
          unfold queue_put_payload
          rw [put_payload_body_eq]
          simp only [specLib, he]
        obtain ⟨q2, h1, h2, h3⟩ :=
          ih { s with queues := setBacklog queue_id (q.backlog ++ [p]) s.queues }
            { q with backlog := q.backlog ++ [p] } (findQueue_setBacklog _ hq)
        refine ⟨q2, ?_, ?_, ?_⟩
        · simpa only [run, hr, if_true] using h1
        · simp only [run, hr, if_true]
          simpa only [List.append_assoc, List.singleton_append] using h2
        · exact h3
      · have he := QUEUE__put_payload_full cfg p hq hroom
        have hr : queue_put_payload cfg.rc (specLib cfg) queue_id p s =
            ⟨cfg.QUEUE_FULL, s,
              [Event.QUEUE__put_payload false queue_id p,
               Event.log_write (if cfg.QUEUE_FULL = c_true then MID.MID_DEBUG_0
                 else MID.MID_FATAL) "queue_put_payload"]⟩ := by
          unfold queue_put_payload
          rw [put_payload_body_eq]
          simp only [specLib, he]
        obtain ⟨q2, h1, h2, h3⟩ := ih s q hq
        refine ⟨q2, ?_, ?_, h3⟩
        · simpa only [run, hr, if_neg hwf.full_ne] using h1
        · simpa only [run, hr, if_neg hwf.full_ne] using h2
    | get =>
      cases hb : q.backlog with
      | nil =>
        have hg : queue_get_payload (specLib cfg) queue_id s = none := by
          unfold queue_get_payload
          simp only [specLib, QUEUE__get_payload_empty hq hb]
        exact ⟨q, by simpa only [run, hg] using hq, by simp [run, hg, hb], rfl⟩
      | cons x rest =>
        have hg : queue_get_payload (specLib cfg) queue_id s =
            some ⟨x, { s with queues := setBacklog queue_id rest s.queues },
              [Event.log_write MID.MID_DEBUG_0 "queue_get_payload",
               Event.QUEUE__get_payload queue_id,
               Event.log_write (if x ≠ 0 then MID.MID_DEBUG_0 else MID.MID_FATAL)
                 "queue_get_payload"]⟩ := by
          unfold queue_get_payload
          simp only [specLib, QUEUE__get_payload_head hq hb]
        obtain ⟨q2, h1, h2, h3⟩ :=
          ih { s with queues := setBacklog queue_id rest s.queues }
            { q with backlog := rest } (findQueue_setBacklog _ hq)
        refine ⟨q2, ?_, ?_, h3⟩
        · simpa only [run, hg] using h1
        · simp only [run, hg]
          simpa only [List.cons_append] using congrArg (List.cons x) h2

end LibTools

namespace LibTools

/-- C8: strict FIFO delivery through `queue_put_payload` and
`queue_get_payload` on a live queue.  A put below capacity succeeds and appends
at the tail, a get on a queue that is not empty returns the head and removes
it, and for every sequence of puts and gets the backlog before the run
followed by the payloads put with success equals the payloads got followed by
the backlog left: the payloads are got in the order they were put. -/
theorem queue_fifo_delivery (cfg : EngineCfg) (hwf : cfg.WF) (queue_id : Int)
    (s : QueueStack) (q : Queue) (hq : findQueue queue_id s.queues = some q) :
    (∀ p, (q.backlog.length : Int) < q.capacity →
      (queue_put_payload cfg.rc (specLib cfg) queue_id p s).value = cfg.PUT_SUCCESS ∧
      findQueue queue_id (queue_put_payload cfg.rc (specLib cfg) queue_id p s).state.queues =
        some { q with backlog := q.backlog ++ [p] }) ∧
    (∀ p rest, q.backlog = p :: rest →
      ∃ r, queue_get_payload (specLib cfg) queue_id s = some r ∧ r.value = p ∧
        findQueue queue_id r.state.queues = some { q with backlog := rest }) ∧
    (∀ ops : List Op,
      ∃ q2, findQueue queue_id (run cfg queue_id ops s).state.queues = some q2 ∧
        q.backlog ++ (run cfg queue_id ops s).puts =
          (run cfg queue_id ops s).gets ++ q2.backlog) := by
  refine ⟨?_, ?_, ?_⟩
  · intro p hroom
    unfold queue_put_payload
    rw [put_payload_body_eq]
    simp only [specLib, QUEUE__put_payload_room cfg false p hq hroom]
    exact ⟨trivial, findQueue_setBacklog _ hq⟩
  · intro p rest hb
    unfold queue_get_payload
    simp only [specLib, QUEUE__get_payload_head hq hb]
    exact ⟨_, rfl, rfl, findQueue_setBacklog _ hq⟩
  · intro ops
    obtain ⟨q2, h1, h2, _⟩ := run_fifo cfg hwf queue_id ops s q hq
    exact ⟨q2, h1, h2⟩

/-- Witness for C8: on the queue "jobs" of depth 4 (Queue-ID 1) the payloads
10 and 20 are put; the count is then 2, the two gets return 10 and then 20,
and the count is then 0. -/
theorem queue_fifo_delivery_witness :
    (∃ q2, findQueue 1 (run cfg0 1 [Op.put 10, Op.put 20, Op.get, Op.get]
          st_jobs).state.queues = some q2 ∧
        ([] : List Nat) ++ (run cfg0 1 [Op.put 10, Op.put 20, Op.get, Op.get] st_jobs).puts =
          (run cfg0 1 [Op.put 10, Op.put 20, Op.get, Op.get] st_jobs).gets ++ q2.backlog) ∧
    (queue_get_count (specLib cfg0) 1
      (run cfg0 1 [Op.put 10, Op.put 20] st_jobs).state).value = 2 ∧
    (run cfg0 1 [Op.put 10, Op.put 20, Op.get, Op.get] st_jobs).gets = [10, 20] ∧
    (queue_get_count (specLib cfg0) 1
      (run cfg0 1 [Op.put 10, Op.put 20, Op.get, Op.get] st_jobs).state).value = 0 :=
  ⟨(queue_fifo_delivery cfg0 cfg0_wf 1 st_jobs ⟨1, "jobs", 4, []⟩ (by decide)).2.2
      [Op.put 10, Op.put 20, Op.get, Op.get],
   by decide, by decide, by decide⟩

/-- C9: on a queue whose backlog is as long as its capacity,
`queue_put_payload` returns the code of `QueueFull`, which is not the success
value, and the state, and with it the backlog of the queue, is the one before
the call. -/
theorem queue_put_payload_at_capacity (cfg : EngineCfg) (hwf : cfg.WF) (queue_id : Int)
    (void_p : Nat) (s : QueueStack) (q : Queue)
    (hq : findQueue queue_id s.queues = some q)
    (hfull : (q.backlog.length : Int) = q.capacity) :
    (queue_put_payload cfg.rc (specLib cfg) queue_id void_p s).value = cfg.QUEUE_FULL ∧
    (queue_put_payload cfg.rc (specLib cfg) queue_id void_p s).value ≠ cfg.PUT_SUCCESS ∧
    (queue_put_payload cfg.rc (specLib cfg) queue_id void_p s).state = s ∧
    findQueue queue_id (queue_put_payload cfg.rc (specLib cfg) queue_id void_p s).state.queues =
      some q := by
  have hno : ¬ (q.backlog.length : Int) < q.capacity := by omega
  unfold queue_put_payload
  rw [put_payload_body_eq]
  simp only [specLib, QUEUE__put_payload_full cfg void_p hq hno]
  exact ⟨trivial, hwf.full_ne, trivial, hq⟩

/-- The state `st_sensor_full` meets the invariant. -/
theorem st_sensor_full_inv : st_sensor_full.Inv := by
  refine ⟨by decide, ?_, ?_⟩
  · intro registry h e he
    cases h
    simp only [List.mem_singleton] at he
    subst he
    decide
  · intro q hq
    simp only [st_sensor_full, List.mem_singleton] at hq
    subst hq
    decide

/-- Witness for C9: the queue "sensor" of depth 2 holds 101 and 102; a third
put fails with the code of `QueueFull` and changes nothing. -/
theorem queue_put_payload_at_capacity_witness :
    (queue_put_payload cfg0.rc (specLib cfg0) 1 103 st_sensor_full).value = cfg0.QUEUE_FULL ∧
    (queue_put_payload cfg0.rc (specLib cfg0) 1 103 st_sensor_full).value ≠ cfg0.PUT_SUCCESS ∧
    (queue_put_payload cfg0.rc (specLib cfg0) 1 103 st_sensor_full).state = st_sensor_full ∧
    findQueue 1 (queue_put_payload cfg0.rc (specLib cfg0) 1 103 st_sensor_full).state.queues =
      some ⟨1, "sensor", 2, [101, 102]⟩ :=
  queue_put_payload_at_capacity cfg0 cfg0_wf 1 103 st_sensor_full ⟨1, "sensor", 2, [101, 102]⟩
    (by decide) (by decide)

/-- C10: on a queue whose backlog is as long as its capacity, in a state that
meets the invariant, `queue_override_put_payload` returns the success value
(not the code of `QueueFull`); the backlog loses its head and gains the new
payload at the tail, and is again as long as the capacity. -/
theorem queue_override_put_payload_at_capacity (cfg : EngineCfg) (hwf : cfg.WF)
    (queue_id : Int) (void_p : Nat) (s : QueueStack) (hinv : s.Inv) (q : Queue)
    (hq : findQueue queue_id s.queues = some q)
    (hfull : (q.backlog.length : Int) = q.capacity) :
    (queue_override_put_payload cfg.rc (specLib cfg) queue_id void_p s).value =
      cfg.PUT_SUCCESS ∧
    (queue_override_put_payload cfg.rc (specLib cfg) queue_id void_p s).value ≠
      cfg.QUEUE_FULL ∧
    ∃ head rest, q.backlog = head :: rest ∧
      findQueue queue_id
          (queue_override_put_payload cfg.rc (specLib cfg) queue_id void_p s).state.queues =
        some { q with backlog := rest ++ [void_p] } ∧
      ((rest ++ [void_p]).length : Int) = q.capacity := by
  have hno : ¬ (q.backlog.length : Int) < q.capacity := by omega
  have hcap := (hinv.queue_ok q (findQueue_some hq).1).2.2.1
  unfold queue_override_put_payload
  rw [put_payload_body_eq]
  simp only [specLib, QUEUE__put_payload_overwrite cfg void_p hq hno]
  refine ⟨trivial, fun h => hwf.full_ne h.symm, ?_⟩
  cases hb : q.backlog with
  | nil =>
    rw [hb] at hfull
    simp only [List.length_nil, Nat.cast_zero] at hfull
    omega
  | cons head rest =>
    refine ⟨head, rest, rfl, ?_, ?_⟩
    · have := findQueue_setBacklog (q.backlog.tail ++ [void_p]) hq
      rw [hb] at this
      exact this
    · rw [hb] at hfull
      simp only [List.length_cons, Nat.cast_add, Nat.cast_one] at hfull
      simp only [List.length_append, List.length_singleton, Nat.cast_add, Nat.cast_one]
      exact hfull

/-- Witness for C10: the queue "sensor" of depth 2 holds 101 and 102; the
overwriting put of 103 succeeds, and the next two gets return 102 and then
103, never 101. -/
theorem queue_override_put_payload_at_capacity_witness :
    ((queue_override_put_payload cfg0.rc (specLib cfg0) 1 103 st_sensor_full).value =
        cfg0.PUT_SUCCESS ∧
      (queue_override_put_payload cfg0.rc (specLib cfg0) 1 103 st_sensor_full).value ≠
        cfg0.QUEUE_FULL ∧
      ∃ head rest, [101, 102] = head :: rest ∧
        findQueue 1
            (queue_override_put_payload cfg0.rc (specLib cfg0) 1 103
              st_sensor_full).state.queues =
          some ⟨1, "sensor", 2, rest ++ [103]⟩ ∧
        ((rest ++ [103]).length : Int) = 2) ∧
    (run cfg0 1 [Op.get, Op.get]
      (queue_override_put_payload cfg0.rc (specLib cfg0) 1 103 st_sensor_full).state).gets =
        [102, 103] :=
  ⟨queue_override_put_payload_at_capacity cfg0 cfg0_wf 1 103 st_sensor_full st_sensor_full_inv
      ⟨1, "sensor", 2, [101, 102]⟩ (by decide) (by decide),
   by decide⟩

end LibTools

namespace LibTools

/-- The state `st_sensor_full` is reached through the API: `queue_init`, the
creation of "sensor" with depth 2, and the puts of 101 and 102. -/
theorem sensor_filled :
    (run cfg0 1 [Op.put 101, Op.put 102]
      (queue_new cfg0.rc (specLib cfg0) 0 (some "sensor") 2
        (specInit cfg0 true QueueStack.start).state).state).state = st_sensor_full := by
  decide

end LibTools

namespace LibTools

/-- For a rejected name `queue_new` leaves the state that the validation
left. -/
theorem queue_new_rejected_name_state {σ : Type} (rc : queue_rc_e) (L : QueueLib σ)
    (queue_id₀ : Int) (queue_name_p : Option String) (queue_depth : Int) (s : σ)
    (hrej : (L.QUEUE__verify_queue_name queue_name_p s).1 ≠ rc.QUEUE_RC_SUCCESS) :
    (queue_new rc L queue_id₀ queue_name_p queue_depth s).state =
      (L.QUEUE__verify_queue_name queue_name_p s).2 := by
  unfold queue_new
  simp only [if_neg hrej]
  split <;> rfl

end LibTools

namespace LibTools

/-! ### Queue-IDs over a sequence of creations -/

/-- The lookup of a valid name in an allocated registry. -/
theorem QUEUE__find_queue_name_valid {cfg : EngineCfg} {name : String} {s : QueueStack}
    {registry : List RegistryEntry}
    (hvalid : QUEUE__verify_queue_name cfg (some name) = cfg.rc.QUEUE_RC_SUCCESS)
    (hb : s.queue_name_id_base_p = some registry) :
    QUEUE__find_queue_name cfg (some name) s =
      match findEntry name registry with
      | some e => e.id
      | none => cfg.rc.QUEUE_RC_QUEUE_NAME_NOT_PRESENT := by
  unfold QUEUE__find_queue_name
  simp only [hvalid, ne_eq, not_true_eq_false, if_false, hb]

/-- One call of `queue_new` on the modelled library, in a state that meets the
invariant and has an allocated registry: either the state is unchanged and the
call is not a successful creation, or the name was valid and absent, the value
returned is the successor of the last Queue-ID, and the entry and the queue
are added. -/
theorem queue_new_step (cfg : EngineCfg) (hwf : cfg.WF) (c : NewCall) (s : QueueStack)
    (registry : List RegistryEntry) (hinv : s.Inv)
    (hb : s.queue_name_id_base_p = some registry) :
    ((queue_new cfg.rc (specLib cfg) c.queue_id₀ c.queue_name_p c.queue_depth s).state = s ∧
      ∀ name, c.queue_name_p = some name →
        ¬ (QUEUE__verify_queue_name cfg (some name) = cfg.rc.QUEUE_RC_SUCCESS ∧
          (queue_new cfg.rc (specLib cfg) c.queue_id₀ c.queue_name_p c.queue_depth s).value
            > 0)) ∨
    (∃ name, c.queue_name_p = some name ∧
      QUEUE__verify_queue_name cfg (some name) = cfg.rc.QUEUE_RC_SUCCESS ∧
      findEntry name registry = none ∧
      (queue_new cfg.rc (specLib cfg) c.queue_id₀ c.queue_name_p c.queue_depth s).value =
        s.last_id + 1 ∧
      (queue_new cfg.rc (specLib cfg) c.queue_id₀ c.queue_name_p c.queue_depth s).state =
        { queue_name_id_base_p := some (⟨name, s.last_id + 1⟩ :: registry),
          queues := ⟨s.last_id + 1, name, c.queue_depth, []⟩ :: s.queues,
          last_id := s.last_id + 1 }) := by
  by_cases hv : QUEUE__verify_queue_name cfg c.queue_name_p = cfg.rc.QUEUE_RC_SUCCESS
  · obtain ⟨name, hname⟩ := verify_valid_some hwf hv
    rw [hname] at hv ⊢
    have hgen := queue_new_valid cfg.rc (specLib cfg) c.queue_id₀ (some name) c.queue_depth s hv
    have hfind := QUEUE__find_queue_name_valid hv hb
    cases hfe : findEntry name registry with
    | some e =>
      left
      rw [hfe] at hfind
      have hpos := (hinv.entry_id registry hb e (findEntry_some hfe).1).1
      have hne : ((specLib cfg).QUEUE__find_queue_name (some name)
          ((specLib cfg).QUEUE__verify_queue_name (some name) s).2).1 ≠
          cfg.rc.QUEUE_RC_QUEUE_NAME_NOT_PRESENT := by
        intro hcon
        have hcon2 : QUEUE__find_queue_name cfg (some name) s =
            cfg.rc.QUEUE_RC_QUEUE_NAME_NOT_PRESENT := hcon
        have h3 : e.id = cfg.rc.QUEUE_RC_QUEUE_NAME_NOT_PRESENT := hfind.symm.trans hcon2
        have h4 := hwf.not_present_le
        omega
      obtain ⟨h1, h2, _⟩ := hgen.2 hne
      refine ⟨h2, ?_⟩
      intro name2 _ hcon
      rw [h1] at hcon
      have := hwf.exists_le
      omega
    | none =>
      rw [hfe] at hfind
      have habs : ((specLib cfg).QUEUE__find_queue_name (some name)
          ((specLib cfg).QUEUE__verify_queue_name (some name) s).2).1 =
          cfg.rc.QUEUE_RC_QUEUE_NAME_NOT_PRESENT := hfind
      obtain ⟨h1, h2, _⟩ := hgen.1 habs
      have h1 : (queue_new cfg.rc (specLib cfg) c.queue_id₀ (some name) c.queue_depth s).value =
          (QUEUE__new cfg (some name) c.queue_depth s).1 := h1
      have h2 : (queue_new cfg.rc (specLib cfg) c.queue_id₀ (some name) c.queue_depth s).state =
          (QUEUE__new cfg (some name) c.queue_depth s).2 := h2
      by_cases hd : c.queue_depth ≤ 0
      · left
        have hnew := QUEUE__new_non_positive_depth hwf (some name) c.queue_depth s hd
        refine ⟨h2.trans hnew.2, ?_⟩
        intro name2 _ hcon
        rw [h1] at hcon
        omega
      · right
        have hnew : QUEUE__new cfg (some name) c.queue_depth s =
            (s.last_id + 1,
              { queue_name_id_base_p := some (⟨name, s.last_id + 1⟩ :: registry),
                queues := ⟨s.last_id + 1, name, c.queue_depth, []⟩ :: s.queues,
                last_id := s.last_id + 1 }) := by
          unfold QUEUE__new
          simp only [hv, ne_eq, not_true_eq_false, if_false, hb, hfe, if_neg hd]
        refine ⟨name, rfl, hv, hfe, ?_, ?_⟩
        · rw [h1, hnew]
        · rw [h2, hnew]
  · left
    have hrej := queue_new_rejected_name_state cfg.rc (specLib cfg) c.queue_id₀ c.queue_name_p
      c.queue_depth s hv
    refine ⟨hrej, ?_⟩
    intro name hname hcon
    rw [hname] at hv
    exact hv hcon.1

end LibTools

namespace LibTools

/-- `queue_new` on the modelled library keeps the invariant. -/
theorem queue_new_inv (cfg : EngineCfg) (c : NewCall) {s : QueueStack} (hinv : s.Inv) :
    (queue_new cfg.rc (specLib cfg) c.queue_id₀ c.queue_name_p c.queue_depth s).state.Inv := by
  by_cases hv : ((specLib cfg).QUEUE__verify_queue_name c.queue_name_p s).1 =
      cfg.rc.QUEUE_RC_SUCCESS
  · have hgen := queue_new_valid cfg.rc (specLib cfg) c.queue_id₀ c.queue_name_p
      c.queue_depth s hv
    by_cases hf : ((specLib cfg).QUEUE__find_queue_name c.queue_name_p
        ((specLib cfg).QUEUE__verify_queue_name c.queue_name_p s).2).1 =
        cfg.rc.QUEUE_RC_QUEUE_NAME_NOT_PRESENT
    · rw [(hgen.1 hf).2.1]
      exact QUEUE__new_inv cfg c.queue_name_p c.queue_depth hinv
    · rw [(hgen.2 hf).2.1]
      exact hinv
  · rw [queue_new_rejected_name_state cfg.rc (specLib cfg) c.queue_id₀ c.queue_name_p
      c.queue_depth s hv]
    exact hinv

theorem creations_skip (cfg : EngineCfg) (c : NewCall) (cs : List NewCall) (s : QueueStack)
    (hstate : (queue_new cfg.rc (specLib cfg) c.queue_id₀ c.queue_name_p c.queue_depth s).state
      = s)
    (hno : ∀ name, c.queue_name_p = some name →
      ¬ (QUEUE__verify_queue_name cfg (some name) = cfg.rc.QUEUE_RC_SUCCESS ∧
        (queue_new cfg.rc (specLib cfg) c.queue_id₀ c.queue_name_p c.queue_depth s).value
          > 0)) :
    creations cfg (c :: cs) s = creations cfg cs s := by
  simp only [creations, hstate]
  cases hn : c.queue_name_p with
  | none => rfl
  | some name =>
    have h := hno name hn
    rw [hn] at h
    simp only [if_neg h]

theorem creations_take (cfg : EngineCfg) (c : NewCall) (cs : List NewCall) (s t : QueueStack)
    (name : String) (hname : c.queue_name_p = some name)
    (hvalid : QUEUE__verify_queue_name cfg (some name) = cfg.rc.QUEUE_RC_SUCCESS)
    (hpos : 0 < (queue_new cfg.rc (specLib cfg) c.queue_id₀ c.queue_name_p c.queue_depth
      s).value)
    (hstate : (queue_new cfg.rc (specLib cfg) c.queue_id₀ c.queue_name_p c.queue_depth s).state
      = t) :
    creations cfg (c :: cs) s =
      ((name, (queue_new cfg.rc (specLib cfg) c.queue_id₀ c.queue_name_p c.queue_depth
          s).value) :: (creations cfg cs t).1, (creations cfg cs t).2) := by
  simp only [creations, hstate]
  rw [hname] at hpos ⊢
  simp only [hvalid, gt_iff_lt, hpos, and_self, if_true]

theorem findEntry_cons_of_absent {name n : String} {id : Int} {registry : List RegistryEntry}
    (habs : findEntry name registry = none) {e : RegistryEntry}
    (h : findEntry n registry = some e) :
    findEntry n (⟨name, id⟩ :: registry) = some e := by
  have hne : ¬ name = n := by
    intro heq
    rw [heq, h] at habs
    cases habs
  simp only [findEntry, hne, if_false, h]

theorem findEntry_cons_none {name n : String} {id : Int} {registry : List RegistryEntry}
    (h : findEntry n (⟨name, id⟩ :: registry) = none) :
    name ≠ n ∧ findEntry n registry = none := by
  by_cases hne : name = n
  · simp [findEntry, hne] at h
  · simp only [findEntry, hne, if_false] at h
    exact ⟨hne, h⟩

/-- The Queue-IDs handed out over a sequence of `queue_new` calls, from a state
that meets the invariant and has an allocated registry. -/
theorem creations_spec (cfg : EngineCfg) (hwf : cfg.WF) (calls : List NewCall) :
    ∀ (s : QueueStack) (registry : List RegistryEntry), s.Inv →
      s.queue_name_id_base_p = some registry →
      (creations cfg calls s).1.map Prod.snd =
        (List.range (creations cfg calls s).1.length).map
          (fun (j : Nat) => s.last_id + 1 + (j : Int)) ∧
      (creations cfg calls s).2.Inv ∧
      ∃ registry2, (creations cfg calls s).2.queue_name_id_base_p = some registry2 ∧
        (∀ n e, findEntry n registry = some e → findEntry n registry2 = some e) ∧
        (∀ p ∈ (creations cfg calls s).1,
          QUEUE__verify_queue_name cfg (some p.1) = cfg.rc.QUEUE_RC_SUCCESS ∧
          findEntry p.1 registry = none ∧
          ∃ e, findEntry p.1 registry2 = some e ∧ e.id = p.2) ∧
        ((creations cfg calls s).1.map Prod.fst).Nodup := by
  induction calls with
  | nil =>
    intro s registry hinv hb
    refine ⟨by simp [creations], hinv, registry, hb, fun _ _ h => h, ?_, by simp [creations]⟩
    intro p hp
    simp [creations] at hp
  | cons c cs ih =>
    intro s registry hinv hb
    rcases queue_new_step cfg hwf c s registry hinv hb with ⟨hst, hno⟩ | ⟨name, hname, hvalid,
      habs, hval, hst⟩
    · rw [creations_skip cfg c cs s hst hno]
      exact ih s registry hinv hb
    · have hpos : 0 < (queue_new cfg.rc (specLib cfg) c.queue_id₀ c.queue_name_p c.queue_depth
          s).value := by
        rw [hval]
        have := hinv.last_nonneg
        omega
      rw [creations_take cfg c cs s _ name hname hvalid hpos hst, hval]
      have hinv2 := queue_new_inv cfg c hinv
      rw [hst] at hinv2
      obtain ⟨hids, hinv3, registry2, hb2, hstable, hcreated, hnodup⟩ :=
        ih _ (⟨name, s.last_id + 1⟩ :: registry) hinv2 rfl
      refine ⟨?_, hinv3, registry2, hb2, ?_, ?_, ?_⟩
      · simp only [List.map_cons, List.length_cons, List.range_succ_eq_map, List.map_map]
        rw [hids]
        simp only [Nat.cast_zero, add_zero, List.cons.injEq, true_and]
        apply List.map_congr_left
        intro j _
        simp only [Function.comp_apply, Nat.cast_succ]
        omega
      · intro n e h
        exact hstable n e (findEntry_cons_of_absent habs h)
      · intro p hp
        rcases List.mem_cons.1 hp with hp | hp
        · subst hp
          refine ⟨hvalid, habs, ⟨name, s.last_id + 1⟩, ?_, rfl⟩
          apply hstable
          simp [findEntry]
        · obtain ⟨h1, h2, h3⟩ := hcreated p hp
          exact ⟨h1, (findEntry_cons_none h2).2, h3⟩
      · simp only [List.map_cons, List.nodup_cons]
        refine ⟨?_, hnodup⟩
        intro hmem
        obtain ⟨p, hp, hpn⟩ := List.mem_map.1 hmem
        have := (findEntry_cons_none (hcreated p hp).2.1).1
        exact this hpn.symm

end LibTools

namespace LibTools

/-- C11: over every sequence of `queue_new` calls after `queue_init`, the
successful creations return 1, 2, 3, ... in call order; the returned IDs are
above zero and pairwise different, as are the names created; `queue_get_id` on
each created name returns, in the final state, the ID its creation returned;
and every ID in the registry is above zero. -/
theorem queue_ids_sequential (cfg : EngineCfg) (hwf : cfg.WF) (calls : List NewCall) :
    (creations cfg calls (st_init cfg)).1.map Prod.snd =
      (List.range (creations cfg calls (st_init cfg)).1.length).map
        (fun (j : Nat) => (j : Int) + 1) ∧
    (∀ p ∈ (creations cfg calls (st_init cfg)).1, 0 < p.2) ∧
    ((creations cfg calls (st_init cfg)).1.map Prod.snd).Nodup ∧
    ((creations cfg calls (st_init cfg)).1.map Prod.fst).Nodup ∧
    (∀ p ∈ (creations cfg calls (st_init cfg)).1,
      (queue_get_id cfg.rc (specLib cfg) (some p.1)
        (creations cfg calls (st_init cfg)).2).value = p.2) ∧
    (∀ registry, (creations cfg calls (st_init cfg)).2.queue_name_id_base_p = some registry →
      ∀ e ∈ registry, 0 < e.id) := by
  have hinv0 : (st_init cfg).Inv := specInit_inv cfg true start_inv
  have hb0 : (st_init cfg).queue_name_id_base_p = some [] := by
    simp [st_init, specInit, queue_init]
  obtain ⟨hids, hinv, registry2, hb2, _, hcreated, hnodup⟩ :=
    creations_spec cfg hwf calls (st_init cfg) [] hinv0 hb0
  have hl : (st_init cfg).last_id = 0 := rfl
  have hids2 : (creations cfg calls (st_init cfg)).1.map Prod.snd =
      (List.range (creations cfg calls (st_init cfg)).1.length).map
        (fun (j : Nat) => (j : Int) + 1) := by
    rw [hids]
    apply List.map_congr_left
    intro j _
    rw [hl]
    omega
  refine ⟨hids2, ?_, ?_, hnodup, ?_, ?_⟩
  · intro p hp
    obtain ⟨_, _, e, he, hid⟩ := hcreated p hp
    rw [← hid]
    exact (hinv.entry_id registry2 hb2 e (findEntry_some he).1).1
  · rw [hids2]
    apply List.Nodup.map _ (List.nodup_range _)
    intro a b hab
    have : (a : Int) + 1 = (b : Int) + 1 := hab
    omega
  · intro p hp
    obtain ⟨hvalid, _, e, he, hid⟩ := hcreated p hp
    have h := ((queue_get_id_generic cfg.rc (specLib cfg) (some p.1)
      (creations cfg calls (st_init cfg)).2).2 hvalid).1
    have h2 : (queue_get_id cfg.rc (specLib cfg) (some p.1)
        (creations cfg calls (st_init cfg)).2).value =
        QUEUE__find_queue_name cfg (some p.1) (creations cfg calls (st_init cfg)).2 := h
    rw [h2, QUEUE__find_queue_name_valid hvalid hb2, he]
    exact hid
  · intro registry hb e he
    exact (hinv.entry_id registry hb e he).1

/-- Witness for C11: after `queue_init`, of the four calls in `calls0` the
first and the last are successful creations; they return 1 and 2, and the
lookups of "jobs" and "sensor" return 1 and 2. -/
theorem queue_ids_sequential_witness :
    (creations cfg0 calls0 (st_init cfg0)).1 = [("jobs", 1), ("sensor", 2)] ∧
    (creations cfg0 calls0 (st_init cfg0)).1.map Prod.snd =
      (List.range (creations cfg0 calls0 (st_init cfg0)).1.length).map
        (fun (j : Nat) => (j : Int) + 1) ∧
    (∀ p ∈ (creations cfg0 calls0 (st_init cfg0)).1,
      (queue_get_id cfg0.rc (specLib cfg0) (some p.1)
        (creations cfg0 calls0 (st_init cfg0)).2).value = p.2) :=
  ⟨by decide, (queue_ids_sequential cfg0 cfg0_wf calls0).1,
   (queue_ids_sequential cfg0 cfg0_wf calls0).2.2.2.2.1⟩

end LibTools

/-! ## Properties of the text functions -/

namespace LibTools

/-! ### TEXT__is_binary -/

/-- The loop of `TEXT__is_binary` with enough fuel: it returns, the value is
`true` exactly when a pair of adjacent bytes from `char_ndx` on passes the
test, every access is a read at an index from `char_ndx` to `data_l - 1`, and
the body runs at most `data_l - 1 - char_ndx` times. -/
theorem TEXT__is_binary_loop_spec (char_signed : Bool) (data_p : List Nat) (data_l : Int) :
    ∀ (fuel char_ndx : Nat), 1 ≤ fuel → data_l - (char_ndx : Int) ≤ (fuel : Int) →
      ∃ r, TEXT__is_binary_loop char_signed data_p data_l fuel char_ndx = some r ∧
        (r.text_rc = true ↔ ∃ j : Nat, char_ndx ≤ j ∧ (j : Int) + 1 < data_l ∧
          binary_char char_signed (data_p.getD j 0) = true ∧
          binary_char char_signed (data_p.getD (j + 1) 0) = true) ∧
        (∀ a ∈ r.trace, a.isWrite = false ∧ (char_ndx : Int) ≤ a.ndx ∧ a.ndx ≤ data_l - 1) ∧
        (r.iterations = 0 ∨ (r.iterations : Int) + (char_ndx : Int) ≤ data_l - 1) := by
  intro fuel
  induction fuel with
  | zero =>
    intro char_ndx h1 _
    omega
  | succ fuel ih =>
    intro char_ndx _ hfuel
    unfold TEXT__is_binary_loop
    by_cases hc : (char_ndx : Int) < data_l - 1
    · rw [if_pos hc]
      obtain ⟨r, hr, hiff, htrace, hiter⟩ := ih (char_ndx + 1) (by omega)
        (by push_cast; omega)
      by_cases hb1 : binary_char char_signed (data_p.getD char_ndx 0) = true
      · rw [if_pos hb1]
        by_cases hb2 : binary_char char_signed (data_p.getD (char_ndx + 1) 0) = true
        · rw [if_pos hb2]
          refine ⟨_, rfl, ?_, ?_, ?_⟩
          · simp only [true_iff]
            exact ⟨char_ndx, le_refl _, by omega, hb1, hb2⟩
          · intro a ha
            simp only [List.mem_cons, List.mem_singleton, List.not_mem_nil, or_false] at ha
            rcases ha with ha | ha <;> subst ha <;>
              simp only [Access.isWrite, Access.ndx, true_and] <;> omega
          · right
            show ((1 : Nat) : Int) + (char_ndx : Int) ≤ data_l - 1
            omega
        · rw [if_neg hb2, hr]
          refine ⟨_, rfl, ?_, ?_, ?_⟩
          · show r.text_rc = true ↔ _
            rw [hiff]
            constructor
            · rintro ⟨j, hj, hrest⟩
              exact ⟨j, by omega, hrest⟩
            · rintro ⟨j, hj, hjl, h1, h2⟩
              have hne : j ≠ char_ndx := by
                intro heq
                subst heq
                exact hb2 h2
              exact ⟨j, by omega, hjl, h1, h2⟩
          · intro a ha
            show a.isWrite = false ∧ _
            simp only [List.mem_cons] at ha
            rcases ha with ha | ha | ha
            · subst ha
              simp only [Access.isWrite, Access.ndx, true_and]
              omega
            · subst ha
              simp only [Access.isWrite, Access.ndx, true_and]
              omega
            · have := htrace a ha
              refine ⟨this.1, ?_, this.2.2⟩
              have h3 := this.2.1
              push_cast at h3
              omega
          · right
            show ((r.iterations + 1 : Nat) : Int) + (char_ndx : Int) ≤ data_l - 1
            push_cast
            rcases hiter with h0 | h0
            · rw [h0]
              push_cast
              omega
            · push_cast at h0
              omega
      · rw [if_neg hb1, hr]
        refine ⟨_, rfl, ?_, ?_, ?_⟩
        · show r.text_rc = true ↔ _
          rw [hiff]
          constructor
          · rintro ⟨j, hj, hrest⟩
            exact ⟨j, by omega, hrest⟩
          · rintro ⟨j, hj, hjl, h1, h2⟩
            have hne : j ≠ char_ndx := by
              intro heq
              subst heq
              exact hb1 h1
            exact ⟨j, by omega, hjl, h1, h2⟩
        · intro a ha
          show a.isWrite = false ∧ _
          simp only [List.mem_cons] at ha
          rcases ha with ha | ha
          · subst ha
            simp only [Access.isWrite, Access.ndx, true_and]
            omega
          · have := htrace a ha
            refine ⟨this.1, ?_, this.2.2⟩
            have h3 := this.2.1
            push_cast at h3
            omega
        · right
          show ((r.iterations + 1 : Nat) : Int) + (char_ndx : Int) ≤ data_l - 1
          push_cast
          rcases hiter with h0 | h0
          · rw [h0]
            push_cast
            omega
          · push_cast at h0
            omega
    · rw [if_neg hc]
      refine ⟨_, rfl, ?_, ?_, Or.inl rfl⟩
      · simp only [Bool.false_eq_true, false_iff, not_exists, not_and]
        intro j hj hjl
        omega
      · intro a ha
        cases ha

/-- `TEXT__is_binary` returns for every buffer and every length, with the
value, the accesses and the number of iterations described. -/
theorem TEXT__is_binary_spec (char_signed : Bool) (data_p : List Nat) (data_l : Int) :
    ∃ r, TEXT__is_binary char_signed data_p data_l = some r ∧
      (r.text_rc = true ↔ ∃ j : Nat, (j : Int) + 1 < data_l ∧
        binary_char char_signed (data_p.getD j 0) = true ∧
        binary_char char_signed (data_p.getD (j + 1) 0) = true) ∧
      (∀ a ∈ r.trace, a.isWrite = false ∧ 0 ≤ a.ndx ∧ a.ndx ≤ data_l - 1) ∧
      (r.iterations = 0 ∨ (r.iterations : Int) ≤ data_l - 1) ∧
      (data_l ≤ 1 → r.text_rc = false ∧ r.trace = [] ∧ r.iterations = 0) := by
  unfold TEXT__is_binary
  by_cases hl : data_l > 0
  · rw [if_pos hl]
    obtain ⟨r, hr, hiff, htrace, hiter⟩ :=
      TEXT__is_binary_loop_spec char_signed data_p data_l data_l.toNat 0 (by omega)
        (by push_cast; omega)
    refine ⟨r, hr, ?_, ?_, ?_, ?_⟩
    · rw [hiff]
      constructor
      · rintro ⟨j, _, hrest⟩
        exact ⟨j, hrest⟩
      · rintro ⟨j, hrest⟩
        exact ⟨j, Nat.zero_le _, hrest⟩
    · intro a ha
      have := htrace a ha
      exact ⟨this.1, by simpa using this.2.1, this.2.2⟩
    · rcases hiter with h | h
      · exact Or.inl h
      · right
        push_cast at h
        omega
    · intro h1
      have h1' : data_l = 1 := by omega
      subst h1'
      have : TEXT__is_binary_loop char_signed data_p 1 (Int.toNat 1) 0 = some ⟨false, [], 0⟩ := by
        simp [TEXT__is_binary_loop]
      rw [this] at hr
      cases hr
      exact ⟨rfl, rfl, rfl⟩
  · rw [if_neg hl]
    refine ⟨_, rfl, ?_, ?_, Or.inl rfl, fun _ => ⟨rfl, rfl, rfl⟩⟩
    · simp only [Bool.false_eq_true, false_iff, not_exists, not_and]
      intro j hj
      omega
    · intro a ha
      cases ha

end LibTools

namespace LibTools

theorem getD_lt_256 {data_p : List Nat} (hbytes : ∀ b ∈ data_p, b < 256) (j : Nat) :
    data_p.getD j 0 < 256 := by
  rw [List.getD_eq_getElem?_getD]
  cases h : data_p[j]? with
  | none => simp
  | some b =>
    simp only [Option.getD_some]
    exact hbytes b (List.getElem?_mem h)

/-- The test of `TEXT__is_binary` on a byte, when `char` is unsigned. -/
theorem binary_char_unsigned (b : Nat) :
    binary_char false b = true ↔ (b = 0 ∨ 128 ≤ b) := by
  simp only [binary_char, char_value, Bool.false_eq_true, false_and, if_false,
    decide_eq_true_eq]
  omega

/-- The test of `TEXT__is_binary` on a byte, when `char` is signed: the
comparison with 0x80 never holds. -/
theorem binary_char_signed {b : Nat} (hb : b < 256) :
    binary_char true b = true ↔ b = 0 := by
  simp only [binary_char, char_value, true_and, decide_eq_true_eq]
  by_cases h : 128 ≤ b
  · rw [if_pos h]
    omega
  · rw [if_neg h]
    omega

/-- C12: what `TEXT__is_binary` returns depends on whether `char` is signed.
With an unsigned `char` it returns TRUE exactly when two adjacent bytes inside
the length are each 0x00 or at least 0x80.  With a signed `char` the test
`>= 0x80` never holds, and it returns TRUE exactly when two adjacent bytes
are both 0x00; for the two bytes 0x80 0x80 it returns FALSE. -/
theorem TEXT__is_binary_depends_on_char_sign (data_p : List Nat) (data_l : Int)
    (hbytes : ∀ b ∈ data_p, b < 256) :
    (∃ r, TEXT__is_binary false data_p data_l = some r ∧
      (r.text_rc = true ↔ ∃ j : Nat, (j : Int) + 1 < data_l ∧
        (data_p.getD j 0 = 0 ∨ 128 ≤ data_p.getD j 0) ∧
        (data_p.getD (j + 1) 0 = 0 ∨ 128 ≤ data_p.getD (j + 1) 0))) ∧
    (∃ r, TEXT__is_binary true data_p data_l = some r ∧
      (r.text_rc = true ↔ ∃ j : Nat, (j : Int) + 1 < data_l ∧
        data_p.getD j 0 = 0 ∧ data_p.getD (j + 1) 0 = 0)) ∧
    (TEXT__is_binary true [0x80, 0x80] 2).map BinaryScan.text_rc = some false := by
  refine ⟨?_, ?_, by decide⟩
  · obtain ⟨r, hr, hiff, _⟩ := TEXT__is_binary_spec false data_p data_l
    refine ⟨r, hr, ?_⟩
    rw [hiff]
    simp only [binary_char_unsigned]
  · obtain ⟨r, hr, hiff, _⟩ := TEXT__is_binary_spec true data_p data_l
    refine ⟨r, hr, ?_⟩
    rw [hiff]
    simp only [binary_char_signed (getD_lt_256 hbytes _)]

/-- Witness for C12: the buffer 0x41 0x80 0x80 with length 3 holds two
adjacent bytes that are at least 0x80; with a signed `char` the value returned
is FALSE, with an unsigned `char` it is TRUE. -/
theorem TEXT__is_binary_depends_on_char_sign_witness :
    ((∃ r, TEXT__is_binary false [0x41, 0x80, 0x80] 3 = some r ∧
        (r.text_rc = true ↔ ∃ j : Nat, (j : Int) + 1 < 3 ∧
          ([0x41, 0x80, 0x80].getD j 0 = 0 ∨ 128 ≤ [0x41, 0x80, 0x80].getD j 0) ∧
          ([0x41, 0x80, 0x80].getD (j + 1) 0 = 0 ∨ 128 ≤ [0x41, 0x80, 0x80].getD (j + 1) 0))) ∧
      (∃ r, TEXT__is_binary true [0x41, 0x80, 0x80] 3 = some r ∧
        (r.text_rc = true ↔ ∃ j : Nat, (j : Int) + 1 < 3 ∧
          [0x41, 0x80, 0x80].getD j 0 = 0 ∧ [0x41, 0x80, 0x80].getD (j + 1) 0 = 0)) ∧
      (TEXT__is_binary true [0x80, 0x80] 2).map BinaryScan.text_rc = some false) ∧
    (TEXT__is_binary true [0x41, 0x80, 0x80] 3).map BinaryScan.text_rc = some false ∧
    (TEXT__is_binary false [0x41, 0x80, 0x80] 3).map BinaryScan.text_rc = some true :=
  ⟨TEXT__is_binary_depends_on_char_sign [0x41, 0x80, 0x80] 3 (by decide), by decide, by decide⟩

/-- C17: `TEXT__is_binary` returns for every buffer and every length; every
access it makes through `data_p` is a read at an index from 0 to
`data_l - 1`, the body of its loop runs at most `data_l - 1` times, and for a
length of at most 1 it returns FALSE without any access. -/
theorem TEXT__is_binary_safe (char_signed : Bool) (data_p : List Nat) (data_l : Int) :
    ∃ r, TEXT__is_binary char_signed data_p data_l = some r ∧
      (∀ a ∈ r.trace, a.isWrite = false ∧ 0 ≤ a.ndx ∧ a.ndx ≤ data_l - 1) ∧
      (r.iterations = 0 ∨ (r.iterations : Int) ≤ data_l - 1) ∧
      (data_l ≤ 1 → r.text_rc = false ∧ r.trace = [] ∧ r.iterations = 0) := by
  obtain ⟨r, hr, _, htrace, hiter, hshort⟩ := TEXT__is_binary_spec char_signed data_p data_l
  exact ⟨r, hr, htrace, hiter, hshort⟩

end LibTools

namespace LibTools

/-! ### C strings in a buffer -/

theorem cstr_cons_zero (t : List Nat) : cstr (0 :: t) = [] := by
  simp [cstr]

theorem cstr_cons_ne {a : Nat} (h : a ≠ 0) (t : List Nat) : cstr (a :: t) = a :: cstr t := by
  simp [cstr, h]

theorem cstr_ne_zero {buf : List Nat} {c : Nat} (h : c ∈ cstr buf) : c ≠ 0 := by
  have := List.mem_takeWhile_imp h
  simpa using this

/-- The byte at the index `strlen` is the terminating zero (a buffer without a
zero byte is read as followed by one). -/
theorem getD_strlen (buf : List Nat) : buf.getD (strlen buf) 0 = 0 := by
  induction buf with
  | nil => rfl
  | cons a t ih =>
    by_cases ha : a = 0
    · subst ha
      simp [strlen, cstr_cons_zero]
    · have : strlen (a :: t) = strlen t + 1 := by simp [strlen, cstr_cons_ne ha]
      rw [this, List.getD_cons_succ]
      exact ih

/-- Below `strlen` the buffer holds the bytes of the string, none of them
zero. -/
theorem cstr_drop_cons {buf : List Nat} :
    ∀ {i : Nat}, i < strlen buf →
      (cstr buf).drop i = buf.getD i 0 :: (cstr buf).drop (i + 1) ∧ buf.getD i 0 ≠ 0 := by
  induction buf with
  | nil =>
    intro i h
    simp [strlen, cstr] at h
  | cons a t ih =>
    intro i h
    by_cases ha : a = 0
    · subst ha
      simp [strlen, cstr_cons_zero] at h
    · have hlen : strlen (a :: t) = strlen t + 1 := by simp [strlen, cstr_cons_ne ha]
      rw [cstr_cons_ne ha]
      cases i with
      | zero => exact ⟨by simp, by simpa using ha⟩
      | succ k =>
        rw [hlen] at h
        have := ih (i := k) (by omega)
        rw [List.getD_cons_succ, List.drop_succ_cons, List.drop_succ_cons]
        exact this

theorem buf_eq_cstr_append (buf : List Nat) : buf = cstr buf ++ buf.drop (strlen buf) := by
  induction buf with
  | nil => rfl
  | cons a t ih =>
    by_cases ha : a = 0
    · subst ha
      simp [strlen, cstr_cons_zero]
    · have hlen : strlen (a :: t) = strlen t + 1 := by simp [strlen, cstr_cons_ne ha]
      rw [hlen, cstr_cons_ne ha, List.drop_succ_cons, List.cons_append, ← ih]

theorem cstr_append_of_zero {K rest : List Nat} (hK : ∀ c ∈ K, c ≠ 0)
    (hrest : rest.getD 0 0 = 0) : cstr (K ++ rest) = K := by
  induction K with
  | nil =>
    cases rest with
    | nil => rfl
    | cons b t =>
      have hb : b = 0 := by simpa using hrest
      subst hb
      simp [cstr_cons_zero]
  | cons a t ih =>
    have ha : a ≠ 0 := hK a (List.mem_cons_self _ _)
    rw [List.cons_append, cstr_cons_ne ha, ih (fun c hc => hK c (List.mem_cons_of_mem _ hc))]

/-- Writing a byte that is not zero over a byte of the string leaves the
length of the string as it is. -/
theorem strlen_set {buf : List Nat} {v : Nat} (hv : v ≠ 0) :
    ∀ {i : Nat}, i < strlen buf → strlen (buf.set i v) = strlen buf := by
  induction buf with
  | nil =>
    intro i h
    simp [strlen, cstr] at h
  | cons a t ih =>
    intro i h
    by_cases ha : a = 0
    · subst ha
      simp [strlen, cstr_cons_zero] at h
    · have hlen : strlen (a :: t) = strlen t + 1 := by simp [strlen, cstr_cons_ne ha]
      cases i with
      | zero => simp [strlen, cstr_cons_ne ha, cstr_cons_ne hv]
      | succ k =>
        rw [hlen] at h
        have := ih (i := k) (by omega)
        simp only [List.set_cons_succ, strlen, cstr_cons_ne ha, List.length_cons] at this ⊢
        omega

end LibTools

namespace LibTools

/-! ### TEXT__is_blank_line -/

theorem mem_of_mem_cstr {buf : List Nat} {c : Nat} (h : c ∈ cstr buf) : c ∈ buf :=
  (List.takeWhile_prefix _).subset h

/-- On a byte, `isblank` of the `char` is the test for space and tab, whether
`char` is signed or not. -/
theorem isblank_char_value (char_signed : Bool) {b : Nat} (hb : b < 256) :
    isblank (char_value char_signed b) = blank_byte b := by
  unfold isblank blank_byte char_value
  rw [decide_eq_decide]
  by_cases h : char_signed = true ∧ 128 ≤ b
  · rw [if_pos h]
    omega
  · rw [if_neg h]
    omega

/-- The loop of `TEXT__is_blank_line` with enough fuel tells whether every
character of the string from `char_ndx` on is blank. -/
theorem TEXT__is_blank_line_loop_spec (char_signed : Bool) (buf : List Nat)
    (hlen : (strlen buf : Int) ≤ INT_MAX) :
    ∀ (fuel char_ndx : Nat), 1 ≤ fuel → strlen buf + 1 ≤ fuel + char_ndx →
      TEXT__is_blank_line_loop char_signed buf fuel char_ndx =
        some (((cstr buf).drop char_ndx).all (fun c => isblank (char_value char_signed c))) := by
  intro fuel
  induction fuel with
  | zero =>
    intro char_ndx h1 _
    omega
  | succ fuel ih =>
    intro char_ndx _ hfuel
    unfold TEXT__is_blank_line_loop
    by_cases hc : char_ndx < strlen buf
    · rw [if_pos hc]
      obtain ⟨hdrop, _⟩ := cstr_drop_cons hc
      rw [hdrop, List.all_cons]
      by_cases hb : isblank (char_value char_signed (buf.getD char_ndx 0)) = false
      · rw [if_pos hb, hb, Bool.false_and]
      · have hmax : (char_ndx : Int) < INT_MAX := by omega
        rw [if_neg hb, if_pos hmax, ih (char_ndx + 1) (by omega) (by omega)]
        simp only [Bool.not_eq_false] at hb
        rw [hb, Bool.true_and]
    · rw [if_neg hc]
      have : (cstr buf).drop char_ndx = [] := by
        apply List.drop_eq_nil_of_le
        unfold strlen at hc
        omega
      rw [this]
      rfl

/-- `TEXT__is_blank_line` returns for every buffer and tells whether every
character of the string is blank. -/
theorem TEXT__is_blank_line_eq (char_signed : Bool) (buf : List Nat)
    (hlen : (strlen buf : Int) ≤ INT_MAX) :
    TEXT__is_blank_line char_signed buf =
      some ((cstr buf).all (fun c => isblank (char_value char_signed c))) := by
  unfold TEXT__is_blank_line
  by_cases hl : strlen buf > 0
  · rw [if_pos hl, TEXT__is_blank_line_loop_spec char_signed buf hlen _ 0 (by omega) (by omega),
      List.drop_zero]
  · rw [if_neg hl]
    have : cstr buf = [] := by
      apply List.eq_nil_of_length_eq_zero
      unfold strlen at hl
      omega
    rw [this]
    rfl

theorem TEXT__is_blank_line_bytes (char_signed : Bool) (buf : List Nat)
    (hbytes : ∀ b ∈ buf, b < 256) (hlen : (strlen buf : Int) ≤ INT_MAX) :
    TEXT__is_blank_line char_signed buf = some ((cstr buf).all blank_byte) := by
  rw [TEXT__is_blank_line_eq char_signed buf hlen]
  congr 1
  rw [Bool.eq_iff_iff, List.all_eq_true, List.all_eq_true]
  constructor <;> intro h c hc
  · rw [← isblank_char_value char_signed (hbytes c (mem_of_mem_cstr hc))]
    exact h c hc
  · rw [isblank_char_value char_signed (hbytes c (mem_of_mem_cstr hc))]
    exact h c hc

/-- C13: `TEXT__is_blank_line` tests every character with `isblank`, which
accepts the space and the tab only.  For every string of bytes that is not
longer than `INT_MAX` it returns, and it returns TRUE exactly when the string
has zero length or holds only spaces and tabs.  For the string that holds one
line feed, which is a string of white space only, it returns FALSE. -/
theorem TEXT__is_blank_line_space_tab (char_signed : Bool) (buf : List Nat)
    (hbytes : ∀ b ∈ buf, b < 256) (hlen : (strlen buf : Int) ≤ INT_MAX) :
    (∃ r, TEXT__is_blank_line char_signed buf = some r ∧
      (r = true ↔ ∀ c ∈ cstr buf, c = 0x20 ∨ c = 0x09) ∧
      (r = false ↔ ∃ c ∈ cstr buf, ¬ (c = 0x20 ∨ c = 0x09))) ∧
    TEXT__is_blank_line char_signed [0x0A, 0] = some false ∧
    (∀ c ∈ cstr [0x0A, 0], isspace (char_value char_signed c) = true) := by
  refine ⟨⟨_, TEXT__is_blank_line_bytes char_signed buf hbytes hlen, ?_, ?_⟩, ?_, ?_⟩
  · simp only [List.all_eq_true, blank_byte, decide_eq_true_eq]
  · rw [← Bool.not_eq_true, List.all_eq_true]
    simp only [blank_byte, decide_eq_true_eq, not_forall, exists_prop]
  · cases char_signed <;> decide
  · cases char_signed <;> decide

/-- Witness for C13: a space and a tab make a blank line; one line feed does
not, although it is white space. -/
theorem TEXT__is_blank_line_space_tab_witness :
    ((∃ r, TEXT__is_blank_line true [0x20, 0x09, 0] = some r ∧
        (r = true ↔ ∀ c ∈ cstr [0x20, 0x09, 0], c = 0x20 ∨ c = 0x09) ∧
        (r = false ↔ ∃ c ∈ cstr [0x20, 0x09, 0], ¬ (c = 0x20 ∨ c = 0x09))) ∧
      TEXT__is_blank_line true [0x0A, 0] = some false ∧
      (∀ c ∈ cstr [0x0A, 0], isspace (char_value true c) = true)) ∧
    TEXT__is_blank_line true [0x20, 0x09, 0] = some true :=
  ⟨TEXT__is_blank_line_space_tab true [0x20, 0x09, 0] (by decide) (by decide), by decide⟩

end LibTools

namespace LibTools

/-! ### TEXT__skip_past_whitespace -/

theorem isspace_of_isgraph {c : Int} (h : isgraph c = true) : isspace c = false := by
  unfold isgraph at h
  unfold isspace
  simp only [decide_eq_true_eq] at h
  simp only [decide_eq_false_iff_not]
  omega

/-- The loop of `TEXT__skip_past_whitespace` with enough fuel stops at the
first graphic character from `ndx` on, or at the terminating zero. -/
theorem TEXT__skip_past_whitespace_loop_spec (char_signed : Bool) (buf : List Nat) :
    ∀ (fuel ndx : Nat), ndx ≤ strlen buf → strlen buf + 1 ≤ fuel + ndx →
      ∃ k, TEXT__skip_past_whitespace_loop char_signed buf fuel ndx = some k ∧
        ndx ≤ k ∧ k ≤ strlen buf ∧
        (∀ j, ndx ≤ j → j < k → isgraph (char_value char_signed (buf.getD j 0)) = false) ∧
        (k < strlen buf → isgraph (char_value char_signed (buf.getD k 0)) = true) := by
  intro fuel
  induction fuel with
  | zero =>
    intro ndx h1 h2
    omega
  | succ fuel ih =>
    intro ndx hle hfuel
    unfold TEXT__skip_past_whitespace_loop
    by_cases hc : buf.getD ndx 0 ≠ 0
    · have hlt : ndx < strlen buf := by
        rcases Nat.lt_or_ge ndx (strlen buf) with h | h
        · exact h
        · have heq : ndx = strlen buf := by omega
          rw [heq] at hc
          exact absurd (getD_strlen buf) hc
      rw [if_pos hc]
      by_cases hg : isgraph (char_value char_signed (buf.getD ndx 0)) ≠ false
      · rw [if_pos hg]
        refine ⟨ndx, rfl, le_refl _, hle, ?_, ?_⟩
        · intro j h1 h2
          omega
        · intro _
          simpa using hg
      · rw [if_neg hg]
        obtain ⟨k, hk, h1, h2, h3, h4⟩ := ih (ndx + 1) (by omega) (by omega)
        refine ⟨k, hk, by omega, h2, ?_, h4⟩
        intro j hj1 hj2
        rcases Nat.eq_or_lt_of_le hj1 with h | h
        · subst h
          simpa using hg
        · exact h3 j (by omega) hj2
    · rw [if_neg hc]
      have heq : ndx = strlen buf := by
        rcases Nat.lt_or_ge ndx (strlen buf) with h | h
        · exact absurd (cstr_drop_cons h).2 hc
        · omega
      refine ⟨ndx, rfl, le_refl _, hle, ?_, ?_⟩
      · intro j h1 h2
        omega
      · intro h
        omega

/-- `TEXT__skip_past_whitespace` returns, for every string, a position inside
the string or at its terminating zero; `isgraph` is zero for every character
before that position, and the character at the position is the first one for
which `isgraph` is not zero, or the terminating zero when there is none; it is
never a white-space character. -/
theorem TEXT__skip_past_whitespace_spec (char_signed : Bool) (buf : List Nat) :
    ∃ k, TEXT__skip_past_whitespace char_signed buf = some k ∧ k ≤ strlen buf ∧
      (∀ j, j < k → isgraph (char_value char_signed (buf.getD j 0)) = false) ∧
      (k < strlen buf → isgraph (char_value char_signed (buf.getD k 0)) = true) ∧
      (k = strlen buf → buf.getD k 0 = 0) ∧
      isspace (char_value char_signed (buf.getD k 0)) = false := by
  obtain ⟨k, hk, _, h2, h3, h4⟩ :=
    TEXT__skip_past_whitespace_loop_spec char_signed buf (strlen buf + 1) 0 (Nat.zero_le _)
      (by omega)
  refine ⟨k, hk, h2, fun j hj => h3 j (Nat.zero_le _) hj, h4, ?_, ?_⟩
  · intro h
    rw [h]
    exact getD_strlen buf
  · rcases Nat.lt_or_ge k (strlen buf) with h | h
    · exact isspace_of_isgraph (h4 h)
    · have heq : k = strlen buf := by omega
      rw [heq, getD_strlen]
      cases char_signed <;> decide

/-- C16: `TEXT__skip_past_whitespace` does not stop at the first character
that is not white space: it goes on until `isgraph` is not zero.  In the
string 0x01 "a" it returns the position of "a", past the character 0x01, which
is not a white-space character.  For every string it returns the position of
the first character for which `isgraph` is not zero, or of the terminating
zero. -/
theorem TEXT__skip_past_whitespace_skips_non_graphic (char_signed : Bool) (buf : List Nat) :
    (TEXT__skip_past_whitespace char_signed [0x01, 0x61, 0] = some 1 ∧
      isspace (char_value char_signed ([0x01, 0x61, 0].getD 0 0)) = false) ∧
    (∃ k, TEXT__skip_past_whitespace char_signed buf = some k ∧ k ≤ strlen buf ∧
      (∀ j, j < k → isgraph (char_value char_signed (buf.getD j 0)) = false) ∧
      (k < strlen buf → isgraph (char_value char_signed (buf.getD k 0)) = true) ∧
      (k = strlen buf → buf.getD k 0 = 0) ∧
      isspace (char_value char_signed (buf.getD k 0)) = false) := by
  refine ⟨?_, TEXT__skip_past_whitespace_spec char_signed buf⟩
  cases char_signed <;> decide

/-! ### TEXT__remove_crlf -/

theorem strchr_lt {buf : List Nat} {c i : Nat} (h : strchr buf c = some i) : i < strlen buf := by
  unfold strchr at h
  by_cases hm : c ∈ cstr buf
  · rw [if_pos hm] at h
    cases h
    exact List.indexOf_lt_length.2 hm
  · rw [if_neg hm] at h
    cases h

theorem strlen_overwrite (b : List Nat) (c : Nat) :
    strlen (match strchr b c with
      | some i => b.set i 0x20
      | none => b) = strlen b := by
  cases h : strchr b c with
  | none => rfl
  | some i => exact strlen_set (by decide) (strchr_lt h)

/-- C14: `TEXT__remove_crlf` never shortens the string: it overwrites the first
carriage return and the first line feed with a space.  "ab" CR LF becomes "ab"
followed by two spaces, two line feeds become a space and a line feed (the
string still ends in a line feed), and in "a" LF "b" LF the line feed in the
middle is replaced and the one at the end is kept. -/
theorem TEXT__remove_crlf_overwrites_first (buf : List Nat) :
    strlen (TEXT__remove_crlf buf) = strlen buf ∧
    TEXT__remove_crlf [0x61, 0x62, 0x0D, 0x0A, 0] = [0x61, 0x62, 0x20, 0x20, 0] ∧
    TEXT__remove_crlf [0x0A, 0x0A, 0] = [0x20, 0x0A, 0] ∧
    TEXT__remove_crlf [0x61, 0x0A, 0x62, 0x0A, 0] = [0x61, 0x20, 0x62, 0x0A, 0] :=
  ⟨(strlen_overwrite _ 0x0A).trans (strlen_overwrite buf 0x0D), by decide, by decide,
    by decide⟩

end LibTools

namespace LibTools

/-! ### TEXT__strip_whitespace -/

theorem set_strlen (buf : List Nat) : buf.set (strlen buf) 0 = buf := by
  induction buf with
  | nil => rfl
  | cons a t ih =>
    by_cases ha : a = 0
    · subst ha
      simp [strlen, cstr_cons_zero]
    · have : strlen (a :: t) = strlen t + 1 := by simp [strlen, cstr_cons_ne ha]
      rw [this, List.set_cons_succ, ih]

theorem drop_strlen_getD (buf : List Nat) : (buf.drop (strlen buf)).getD 0 0 = 0 := by
  induction buf with
  | nil => rfl
  | cons a t ih =>
    by_cases ha : a = 0
    · subst ha
      simp [strlen, cstr_cons_zero]
    · have : strlen (a :: t) = strlen t + 1 := by simp [strlen, cstr_cons_ne ha]
      rw [this, List.drop_succ_cons]
      exact ih

/-- A list is what `rdropWhile` keeps of it followed by a run of elements that
all pass the test. -/
theorem rdropWhile_append_run (p : Nat → Bool) (l : List Nat) :
    ∃ run, l = l.rdropWhile p ++ run ∧ ∀ c ∈ run, p c = true := by
  induction l using List.reverseRecOn with
  | nil => exact ⟨[], by simp, by simp⟩
  | append_singleton init c ih =>
    obtain ⟨run, h1, h2⟩ := ih
    by_cases hc : p c = true
    · refine ⟨run ++ [c], ?_, ?_⟩
      · rw [List.rdropWhile_concat_pos _ _ _ hc, ← List.append_assoc, ← h1]
      · intro x hx
        rcases List.mem_append.1 hx with hx | hx
        · exact h2 x hx
        · simp only [List.mem_singleton] at hx
          rw [hx]
          exact hc
    · exact ⟨[], by rw [List.rdropWhile_concat_neg _ _ _ hc, List.append_nil], by simp⟩

/-- The loop of `TEXT__strip_whitespace`, entered at the last byte of a run
`pre` of bytes that are not zero, with enough fuel: it returns, the trailing
blanks of `pre` are overwritten with zero bytes, nothing else changes, and
every access is at an index from 0 to the one it was entered with. -/
theorem TEXT__strip_whitespace_loop_spec (pre : List Nat) :
    (∀ c ∈ pre, c ≠ 0) → ∀ (tl : List Nat) (fuel : Nat), pre.length + 1 ≤ fuel →
      ∃ r, TEXT__strip_whitespace_loop fuel ((pre.length : Int) - 1) (pre ++ tl) = some r ∧
        r.buf = pre.rdropWhile blank_byte ++
          (List.replicate (pre.length - (pre.rdropWhile blank_byte).length) 0 ++ tl) ∧
        (∀ a ∈ r.trace, 0 ≤ a.ndx ∧ a.ndx ≤ (pre.length : Int) - 1) := by
  induction pre using List.reverseRecOn with
  | nil =>
    intro _ tl fuel hfuel
    cases fuel with
    | zero => omega
    | succ f =>
      refine ⟨⟨tl, []⟩, ?_, by simp, by simp⟩
      unfold TEXT__strip_whitespace_loop
      simp
  | append_singleton init c ih =>
    intro hnz tl fuel hfuel
    have hc0 : c ≠ 0 := hnz c (by simp)
    have hinit : ∀ x ∈ init, x ≠ 0 := fun x hx => hnz x (by simp [hx])
    have hlen : (init ++ [c]).length = init.length + 1 := by simp
    cases fuel with
    | zero => omega
    | succ f =>
      have hndx : (((init ++ [c]).length : Nat) : Int) - 1 = (init.length : Int) := by
        rw [hlen]
        push_cast
        omega
      have hget : (init ++ [c] ++ tl).getD init.length 0 = c := by
        rw [List.append_assoc, List.getD_append_right _ _ _ _ (le_refl _)]
        simp
      have hset : (init ++ [c] ++ tl).set init.length 0 = init ++ (0 :: tl) := by
        rw [List.append_assoc, List.set_append_right _ _ (le_refl _)]
        simp
      rw [hndx]
      unfold TEXT__strip_whitespace_loop
      have hge : (init.length : Int) ≥ 0 := Int.natCast_nonneg _
      rw [if_pos hge, Int.toNat_natCast, hget]
      by_cases hb : blank_byte c = true
      · have hcond : c = 0 ∨ c = 0x20 ∨ c = 0x09 := by
          simp only [blank_byte, decide_eq_true_eq] at hb
          exact Or.inr hb
        rw [if_pos hcond, hset]
        obtain ⟨r, hr, hbuf, htrace⟩ := ih hinit (0 :: tl) f (by omega)
        rw [hr]
        refine ⟨_, rfl, ?_, ?_⟩
        · show r.buf = _
          rw [hbuf, List.rdropWhile_concat_pos _ _ _ hb, hlen]
          have hk : (init.rdropWhile blank_byte).length ≤ init.length :=
            (List.rdropWhile_prefix blank_byte init).length_le
          have : init.length + 1 - (init.rdropWhile blank_byte).length =
              (init.length - (init.rdropWhile blank_byte).length) + 1 := by omega
          rw [this, List.replicate_succ']
          simp
        · intro a ha
          have ha : a ∈ Access.read (init.length : Int) :: Access.write (init.length : Int) ::
              r.trace := ha
          simp only [List.mem_cons] at ha
          rcases ha with ha | ha | ha
          · subst ha
            simp only [Access.ndx]
            omega
          · subst ha
            simp only [Access.ndx]
            omega
          · have := htrace a ha
            omega
      · have hcond : ¬ (c = 0 ∨ c = 0x20 ∨ c = 0x09) := by
          simp only [blank_byte, decide_eq_true_eq] at hb
          rintro (h | h)
          · exact hc0 h
          · exact hb h
        rw [if_neg hcond]
        refine ⟨_, rfl, ?_, ?_⟩
        · show init ++ [c] ++ tl = _
          rw [List.rdropWhile_concat_neg _ _ _ hb]
          simp
        · intro a ha
          simp only [List.mem_singleton] at ha
          subst ha
          simp only [Access.ndx]
          omega

theorem int_of_size_t_eq {n : Nat} (h : (n : Int) ≤ INT_MAX) : int_of_size_t n = (n : Int) := by
  unfold int_of_size_t
  unfold INT_MAX at h
  omega

/-- `TEXT__strip_whitespace` returns for every string that is not longer than
`INT_MAX`: the trailing blanks of the string are overwritten with zero bytes,
nothing else changes, and every access is at an index from 0 to `strlen`. -/
theorem TEXT__strip_whitespace_spec (buf : List Nat) (hlen : (strlen buf : Int) ≤ INT_MAX) :
    ∃ r, TEXT__strip_whitespace buf = some r ∧
      r.buf = (cstr buf).rdropWhile blank_byte ++
        (List.replicate (strlen buf - ((cstr buf).rdropWhile blank_byte).length) 0 ++
          buf.drop (strlen buf)) ∧
      (∀ a ∈ r.trace, 0 ≤ a.ndx ∧ a.ndx ≤ (strlen buf : Int)) := by
  obtain ⟨r, hr, hbuf, htrace⟩ := TEXT__strip_whitespace_loop_spec (cstr buf)
    (fun c hc => cstr_ne_zero hc) (buf.drop (strlen buf)) (strlen buf + 1)
    (by unfold strlen; omega)
  rw [← buf_eq_cstr_append] at hr
  have hr2 : TEXT__strip_whitespace_loop (strlen buf + 1) ((strlen buf : Int) - 1) buf =
      some r := hr
  refine ⟨⟨r.buf, Access.read (strlen buf) :: Access.write (strlen buf) :: r.trace⟩, ?_, hbuf,
    ?_⟩
  · unfold TEXT__strip_whitespace
    rw [int_of_size_t_eq hlen]
    unfold TEXT__strip_whitespace_loop
    have hge : (strlen buf : Int) ≥ 0 := Int.natCast_nonneg _
    rw [if_pos hge, Int.toNat_natCast, getD_strlen, set_strlen, if_pos (Or.inl rfl), hr2]
    rfl
  · intro a ha
    simp only [List.mem_cons] at ha
    rcases ha with ha | ha | ha
    · subst ha
      simp only [Access.ndx]
      omega
    · subst ha
      simp only [Access.ndx]
      omega
    · have := htrace a ha
      have h2 : ((cstr buf).length : Int) = (strlen buf : Int) := rfl
      omega

end LibTools

namespace LibTools

/-- The string that `TEXT__strip_whitespace` leaves in the buffer. -/
theorem TEXT__strip_whitespace_cstr {buf : List Nat} {r : Stripped}
    (hbuf : r.buf = (cstr buf).rdropWhile blank_byte ++
      (List.replicate (strlen buf - ((cstr buf).rdropWhile blank_byte).length) 0 ++
        buf.drop (strlen buf))) :
    cstr r.buf = (cstr buf).rdropWhile blank_byte := by
  rw [hbuf]
  apply cstr_append_of_zero
  · intro c hc
    exact cstr_ne_zero ((List.rdropWhile_prefix blank_byte (cstr buf)).subset hc)
  · cases strlen buf - ((cstr buf).rdropWhile blank_byte).length with
    | zero =>
      rw [List.replicate_zero, List.nil_append]
      exact drop_strlen_getD buf
    | succ m => simp [List.replicate_succ]

/-- C15: `TEXT__strip_whitespace` returns for every string that is not longer
than `INT_MAX`.  The string left in the buffer is the string before the call
without its trailing run of space and tab characters: the string before is
the string after followed by a run of spaces and tabs, the string after does
not end in a space or a tab, every access is at an index from 0 to `strlen`,
and a second call leaves the buffer as the first left it. -/
theorem TEXT__strip_whitespace_strips_trailing (buf : List Nat)
    (hlen : (strlen buf : Int) ≤ INT_MAX) :
    ∃ r, TEXT__strip_whitespace buf = some r ∧
      cstr r.buf = (cstr buf).rdropWhile blank_byte ∧
      (∃ run, cstr buf = cstr r.buf ++ run ∧ ∀ c ∈ run, c = 0x20 ∨ c = 0x09) ∧
      (∀ h : cstr r.buf ≠ [],
        (cstr r.buf).getLast h ≠ 0x20 ∧ (cstr r.buf).getLast h ≠ 0x09) ∧
      (∀ a ∈ r.trace, 0 ≤ a.ndx ∧ a.ndx ≤ (strlen buf : Int)) ∧
      (∃ r2, TEXT__strip_whitespace r.buf = some r2 ∧ r2.buf = r.buf) := by
  obtain ⟨r, hr, hbuf, htrace⟩ := TEXT__strip_whitespace_spec buf hlen
  have hcstr := TEXT__strip_whitespace_cstr hbuf
  have hlen1 : strlen r.buf = ((cstr buf).rdropWhile blank_byte).length := by
    unfold strlen
    rw [hcstr]
  have hle : ((cstr buf).rdropWhile blank_byte).length ≤ strlen buf :=
    (List.rdropWhile_prefix blank_byte (cstr buf)).length_le
  have hlen2 : (strlen r.buf : Int) ≤ INT_MAX := by
    rw [hlen1]
    omega
  refine ⟨r, hr, hcstr, ?_, ?_, htrace, ?_⟩
  · obtain ⟨run, h1, h2⟩ := rdropWhile_append_run blank_byte (cstr buf)
    refine ⟨run, by rw [hcstr]; exact h1, ?_⟩
    intro c hc
    simpa [blank_byte] using h2 c hc
  · rw [hcstr]
    intro h
    have := List.rdropWhile_last_not blank_byte (cstr buf) h
    simp only [blank_byte, decide_eq_true_eq, not_or] at this
    exact this
  · obtain ⟨r2, hr2, hbuf2, _⟩ := TEXT__strip_whitespace_spec r.buf hlen2
    refine ⟨r2, hr2, ?_⟩
    rw [hbuf2, hcstr, hlen1, List.rdropWhile_idempotent, Nat.sub_self, List.replicate_zero,
      List.nil_append]
    have hdrop : r.buf.drop ((cstr buf).rdropWhile blank_byte).length =
        List.replicate (strlen buf - ((cstr buf).rdropWhile blank_byte).length) 0 ++
          buf.drop (strlen buf) := by
      rw [hbuf, List.drop_left]
    rw [hdrop, ← hbuf]

/-- Witness for C15: of "a b" followed by a space and a tab the call leaves
"a b", in the buffer 0x61 0x20 0x62 followed by zero bytes. -/
theorem TEXT__strip_whitespace_strips_trailing_witness :
    (∃ r, TEXT__strip_whitespace [0x61, 0x20, 0x62, 0x20, 0x09, 0] = some r ∧
      cstr r.buf = (cstr [0x61, 0x20, 0x62, 0x20, 0x09, 0]).rdropWhile blank_byte ∧
      (∃ run, cstr [0x61, 0x20, 0x62, 0x20, 0x09, 0] = cstr r.buf ++ run ∧
        ∀ c ∈ run, c = 0x20 ∨ c = 0x09) ∧
      (∀ h : cstr r.buf ≠ [],
        (cstr r.buf).getLast h ≠ 0x20 ∧ (cstr r.buf).getLast h ≠ 0x09) ∧
      (∀ a ∈ r.trace,
        0 ≤ a.ndx ∧ a.ndx ≤ (strlen [0x61, 0x20, 0x62, 0x20, 0x09, 0] : Int)) ∧
      (∃ r2, TEXT__strip_whitespace r.buf = some r2 ∧ r2.buf = r.buf)) ∧
    (TEXT__strip_whitespace [0x61, 0x20, 0x62, 0x20, 0x09, 0]).map Stripped.buf =
      some [0x61, 0x20, 0x62, 0, 0, 0] :=
  ⟨TEXT__strip_whitespace_strips_trailing [0x61, 0x20, 0x62, 0x20, 0x09, 0] (by decide),
   by decide⟩

/-- C18: the blank-line test and the strip agree: for every string of bytes
that is not longer than `INT_MAX` both functions return, and
`TEXT__is_blank_line` returns TRUE exactly when `TEXT__strip_whitespace`
leaves the empty string. -/
theorem TEXT__is_blank_line_iff_strip_empty (char_signed : Bool) (buf : List Nat)
    (hbytes : ∀ b ∈ buf, b < 256) (hlen : (strlen buf : Int) ≤ INT_MAX) :
    ∃ b r, TEXT__is_blank_line char_signed buf = some b ∧
      TEXT__strip_whitespace buf = some r ∧
      (b = true ↔ cstr r.buf = []) := by
  obtain ⟨r, hr, hbuf, _⟩ := TEXT__strip_whitespace_spec buf hlen
  refine ⟨_, r, TEXT__is_blank_line_bytes char_signed buf hbytes hlen, hr, ?_⟩
  rw [TEXT__strip_whitespace_cstr hbuf, List.rdropWhile_eq_nil_iff, List.all_eq_true]

/-- Witness for C18: for two spaces and a tab both functions report a blank
line; for "a" followed by a space neither does. -/
theorem TEXT__is_blank_line_iff_strip_empty_witness :
    (∃ b r, TEXT__is_blank_line true [0x20, 0x20, 0x09, 0] = some b ∧
      TEXT__strip_whitespace [0x20, 0x20, 0x09, 0] = some r ∧
      (b = true ↔ cstr r.buf = [])) ∧
    TEXT__is_blank_line true [0x20, 0x20, 0x09, 0] = some true ∧
    (TEXT__strip_whitespace [0x20, 0x20, 0x09, 0]).map (fun r => cstr r.buf) = some [] ∧
    TEXT__is_blank_line true [0x61, 0x20, 0] = some false ∧
    (TEXT__strip_whitespace [0x61, 0x20, 0]).map (fun r => cstr r.buf) = some [0x61] :=
  ⟨TEXT__is_blank_line_iff_strip_empty true [0x20, 0x20, 0x09, 0] (by decide) (by decide),
   by decide, by decide, by decide, by decide⟩

end LibTools
